import Mathlib

/-!
Verification development for the service-registry synchronization cache
(cache/service.go).  The Go code is embedded shallowly: the concurrent maps
of the implementation become association lists, pointer-sharing becomes
value sharing, and the revision-notification channel becomes an output list.
Components of the repository that are referenced by cache/service.go but are
not part of the analysed source file (the generic SyncMap utility, the alias
bucket, the namespace listing bucket, the model.Service record and the two
collaborator interfaces) are modelled from the specification, as marked on
each definition.
-/

/-- Modelled from the spec: common/utils SyncMap, a concurrency-safe string
keyed map with Load, Store, Delete and Range.  Embedded as an association
list; Store replaces in place, Delete removes every binding of the key. -/
abbrev SMap (V : Type) : Type := List (String × V)

namespace SMap

/-- Lookup of a key, mirror of SyncMap.Load. -/
def load {V : Type} : SMap V → String → Option V
  | [], _ => none
  | (k, v) :: rest, key => if k = key then some v else load rest key

/-- Insertion of a binding, mirror of SyncMap.Store. -/
def store {V : Type} : SMap V → String → V → SMap V
  | [], key, val => [(key, val)]
  | (k, v) :: rest, key, val =>
    if k = key then (key, val) :: rest else (k, v) :: store rest key val

/-- Removal of a key, mirror of SyncMap.Delete. -/
def erase {V : Type} : SMap V → String → SMap V
  | [], _ => []
  | (k, v) :: rest, key =>
    if k = key then erase rest key else (k, v) :: erase rest key

/-- The keys of the map, in entry order. -/
abbrev keys {V : Type} (m : SMap V) : List String := m.map Prod.fst

/-- A map is well formed when no key occurs twice. -/
abbrev NodupKeys {V : Type} (m : SMap V) : Prop := (keys m).Nodup

end SMap

/-- Modelled from the spec: model.InstanceCount, the instance-count rollup
of total and healthy instances. -/
structure InstanceCount where
  totalInstanceCount : Nat
  healthyInstanceCount : Nat
deriving DecidableEq, Repr

/-- Modelled from the spec: model.NamespaceServiceCount, the per-namespace
aggregate of service count and instance rollup. -/
structure NamespaceServiceCount where
  serviceCount : Nat
  instanceCnt : InstanceCount
deriving DecidableEq, Repr

/-- Modelled from the spec: model.Service, the cached entity record with its
unique identifier, namespace, name, alias reference, metadata mapping, last
modified timestamp, soft-delete validity flag and the lazily derived port
fields. -/
structure Service where
  id : String
  nspace : String
  name : String
  reference : String
  meta : SMap String
  mtime : Int
  valid : Bool
  ports : String
  servicePorts : List Nat
deriving DecidableEq, Repr

/-- Modelled from the spec: an entity is an alias when its reference field
names another entity. -/
def Service.IsAlias (s : Service) : Bool := s.reference != ""

/-- One message of the revision-notification channel: an identifier and
whether the record now exists. -/
structure RevisionNotify where
  serviceID : String
  valid : Bool
deriving DecidableEq, Repr

/-- Modelled from the spec: the instance-cache collaborator interface, a
ports lookup and an instance-count lookup keyed by service identifier. -/
structure InstCache where
  getServicePorts : String → List Nat
  getInstancesCountByServiceID : String → InstanceCount

/-- Modelled from the spec: the store collaborator's single-entity fetch; it
returns an optional entity and an optional error. -/
abbrev StoreGetServiceByID : Type := String → Option Service × Option String

/-- Modelled from the spec: the alias bucket, a bidirectional index of alias
links.  A link is the pair of the alias identifier and the referenced
identifier; linking and unlinking are idempotent and purge removes every
link touching an entity on either side. -/
abbrev AliasBucket : Type := Finset (String × String)

/-- Modelled from the spec: alias bucket link. -/
def addServiceAlias (b : AliasBucket) (al aliasFor : Service) : AliasBucket :=
  insert (al.id, aliasFor.id) b

/-- Modelled from the spec: alias bucket unlink. -/
def delServiceAlias (b : AliasBucket) (al aliasFor : Service) : AliasBucket :=
  b.erase (al.id, aliasFor.id)

/-- Modelled from the spec: alias bucket purge of every link touching the
given entity, as alias or as target. -/
def cleanServiceAlias (b : AliasBucket) (svc : Service) : AliasBucket :=
  b.filter (fun p => p.1 ≠ svc.id ∧ p.2 ≠ svc.id)

/-- Modelled from the spec: the namespace listing bucket, a per-namespace
membership keyed by service identifier together with a per-namespace
revision token recomputed once per merge cycle from the membership. -/
structure ServiceNamespaceBucket where
  svcMap : SMap (SMap Service)
  revisions : SMap (Finset (String × Service))
deriving DecidableEq

/-- Modelled from the spec: the opaque revision token of one namespace, a
deterministic function of the membership. -/
def revisionToken (m : SMap Service) : Finset (String × Service) := m.toFinset

/-- Modelled from the spec: listing bucket membership add. -/
def ServiceNamespaceBucket.addService (b : ServiceNamespaceBucket) (svc : Service) :
    ServiceNamespaceBucket :=
  let spaces := (SMap.load b.svcMap svc.nspace).getD []
  { b with svcMap := SMap.store b.svcMap svc.nspace (SMap.store spaces svc.id svc) }

/-- Modelled from the spec: listing bucket membership remove. -/
def ServiceNamespaceBucket.removeService (b : ServiceNamespaceBucket) (svc : Service) :
    ServiceNamespaceBucket :=
  match SMap.load b.svcMap svc.nspace with
  | none => b
  | some spaces =>
    { b with svcMap := SMap.store b.svcMap svc.nspace (SMap.erase spaces svc.id) }

/-- Modelled from the spec: recompute every revision token once per merge
cycle. -/
def ServiceNamespaceBucket.reloadRevision (b : ServiceNamespaceBucket) :
    ServiceNamespaceBucket :=
  { b with revisions := b.svcMap.map (fun kv => (kv.1, revisionToken kv.2)) }

/-- The state of serviceCache: the primary id index, the namespace and name
index, the two legacy cl5 indices, the alias bucket, the namespace listing
bucket, the pending notification set, the per-namespace aggregates and the
incrementally maintained running total serviceCount. -/
structure CacheState where
  ids : SMap Service
  names : SMap (SMap Service)
  cl5Sid2Name : SMap String
  cl5Names : SMap Service
  aliasBucket : AliasBucket
  serviceList : ServiceNamespaceBucket
  pendingServices : SMap Unit
  namespaceServiceCnt : SMap NamespaceServiceCount
  serviceCount : Int
deriving DecidableEq

/-- The state set up by initialize: every index empty, the running total at
its zero value. -/
def initialState : CacheState :=
  { ids := [], names := [], cl5Sid2Name := [], cl5Names := [],
    aliasBucket := ∅, serviceList := { svcMap := [], revisions := [] },
    pendingServices := [], namespaceServiceCnt := [], serviceCount := 0 }

/-- Mirror of clear: every index is replaced by a fresh empty one.  The
running total serviceCount is not reset by clear in the source. -/
def clearState (s : CacheState) : CacheState :=
  { initialState with serviceCount := s.serviceCount }

/-- Two-level lookup in a namespace-keyed index. -/
def load2 {V : Type} (m : SMap (SMap V)) (ns key : String) : Option V :=
  match SMap.load m ns with
  | none => none
  | some inner => SMap.load inner key

/-- Mirror of genCl5Name. -/
def genCl5Name (name : String) : String := "cl5." ++ name

/-- Mirror of updateCl5SidAndNames. -/
def updateCl5SidAndNames (s : CacheState) (service : Service) : CacheState :=
  match SMap.load service.meta "internal-cl5-sid" with
  | none => s
  | some _ =>
    let sid := service.name
    match SMap.load service.meta "internal-cl5-name" with
    | none =>
      match SMap.load s.cl5Sid2Name sid with
      | none => s
      | some oldCl5Name =>
        { s with cl5Sid2Name := SMap.erase s.cl5Sid2Name sid,
                 cl5Names := SMap.erase s.cl5Names oldCl5Name }
    | some cl5NameMeta =>
      let cl5Name := genCl5Name cl5NameMeta
      { s with cl5Sid2Name := SMap.store s.cl5Sid2Name sid cl5Name,
               cl5Names := SMap.store s.cl5Names cl5Name service }

/-- Mirror of removeServices: drop the record from the primary index, the
listing bucket, the alias bucket, the pending set, the namespace and name
index and the legacy cl5 indices. -/
def removeServices (s : CacheState) (service : Service) : CacheState :=
  let ids := SMap.erase s.ids service.id
  let serviceList := s.serviceList.removeService service
  let aliasBucket := cleanServiceAlias s.aliasBucket service
  let pending := SMap.erase s.pendingServices service.id
  let names :=
    match SMap.load s.names service.nspace with
    | none => s.names
    | some spaces => SMap.store s.names service.nspace (SMap.erase spaces service.name)
  let cl5 :=
    match SMap.load s.cl5Sid2Name service.name with
    | none => (s.cl5Sid2Name, s.cl5Names)
    | some cl5Name => (SMap.erase s.cl5Sid2Name service.name, SMap.erase s.cl5Names cl5Name)
  { s with ids := ids, serviceList := serviceList, aliasBucket := aliasBucket,
           pendingServices := pending, names := names,
           cl5Sid2Name := cl5.1, cl5Names := cl5.2 }

/-- Mirror of fillServicePorts.  The Go code writes the derived port fields
through the service pointer and never writes the index maps, so the
embedding applies the enrichment to the value handed out. -/
def fillServicePorts (inst : InstCache) (svc : Service) : Service :=
  if svc.ports ≠ "" then svc
  else
    let ports := inst.getServicePorts svc.id
    if ports = [] then svc
    else { svc with servicePorts := ports,
                    ports := String.intercalate "," (ports.map (fun p => toString p)) }

/-- Mirror of GetServiceByID. -/
def GetServiceByID (inst : InstCache) (s : CacheState) (id : String) : Option Service :=
  if id = "" then none
  else
    match SMap.load s.ids id with
    | none => none
    | some svc => some (fillServicePorts inst svc)

/-- Mirror of GetServiceByName. -/
def GetServiceByName (inst : InstCache) (s : CacheState) (name ns : String) : Option Service :=
  if name = "" ∨ ns = "" then none
  else
    match SMap.load s.names ns with
    | none => none
    | some spaces =>
      match SMap.load spaces name with
      | none => none
      | some svc => some (fillServicePorts inst svc)

/-- Mirror of GetNamespaceCntInfo: the zero aggregate when the namespace is
unknown. -/
def GetNamespaceCntInfo (s : CacheState) (ns : String) : NamespaceServiceCount :=
  match SMap.load s.namespaceServiceCnt ns with
  | none =>
    { serviceCount := 0,
      instanceCnt := { totalInstanceCount := 0, healthyInstanceCount := 0 } }
  | some val => val

/-- Mirror of GetServicesCount: a full Range over the primary index counting
entries. -/
def GetServicesCount (s : CacheState) : Nat :=
  s.ids.foldl (fun count _ => count + 1) 0

/-- Mirror of ListServices: the revision token and membership of one
namespace in the listing bucket. -/
def ListServices (s : CacheState) (ns : String) :
    Option (Finset (String × Service)) × List Service :=
  (SMap.load s.serviceList.revisions ns,
   ((SMap.load s.serviceList.svcMap ns).getD []).map Prod.snd)

/-- Mirror of GetServiceByCl5Name. -/
def GetServiceByCl5Name (s : CacheState) (cl5Name : String) : Option Service :=
  SMap.load s.cl5Names (genCl5Name cl5Name)

/-- Mirror of CleanNamespace: the whole name sub-index of the namespace is
dropped; no other index is touched. -/
def CleanNamespace (s : CacheState) (ns : String) : CacheState :=
  { s with names := SMap.erase s.names ns }

/-- The visitor type ServiceIterProc: a continue flag and an optional
error. -/
abbrev ServiceIterProc : Type := String → Service → Bool × Option String

/-- The Range loop inside IteratorServices: a visitor error stops the
iteration and is captured; a false continue flag stops it with the error
still nil. -/
def iterRange (inst : InstCache) (iterProc : ServiceIterProc) :
    List (String × Service) → Option String
  | [] => none
  | (k, svc) :: rest =>
    match iterProc k (fillServicePorts inst svc) with
    | (_, some e) => some e
    | (false, none) => none
    | (true, none) => iterRange inst iterProc rest

/-- Mirror of IteratorServices.  Range only reads the primary index map and
hands each record to the visitor, so the state comes back unchanged. -/
def IteratorServices (inst : InstCache) (s : CacheState) (iterProc : ServiceIterProc) :
    Option String × CacheState :=
  (iterRange inst iterProc s.ids, s)

/-- Mirror of GetOrLoadServiceByID.  The single-flight group around the
fetch deduplicates concurrent callers; one sequential call is embedded.  The
entity is stored only when the fetch returned no error and a non-nil entity,
and the fetch error is dropped by the source. -/
def GetOrLoadServiceByID (inst : InstCache) (storage : StoreGetServiceByID)
    (s : CacheState) (id : String) : Option Service × CacheState :=
  if id = "" then (none, s)
  else
    match SMap.load s.ids id with
    | some value => (some (fillServicePorts inst value), s)
    | none =>
      let s' :=
        match storage id with
        | (some svc, none) => { s with ids := SMap.store s.ids svc.id svc }
        | _ => s
      match SMap.load s'.ids id with
      | none => (none, s')
      | some value => (some (fillServicePorts inst value), s')

/-- Mirror of notifyServiceCountReload: every notified identifier is stored
in the pending set. -/
def notifyServiceCountReload (s : CacheState) (svcIds : List String) : CacheState :=
  { s with pendingServices := svcIds.foldl (fun m k => SMap.store m k ()) s.pendingServices }

/-- Insertion into the affected-namespace set (a Go map used as a set). -/
def addNs (l : List String) (ns : String) : List String :=
  if ns ∈ l then l else l ++ [ns]

/-- Mirror of appendServiceCountChangeNamespace: drain the pending set by a
Range that collects every pending identifier now present in the primary
index, adds the namespace of its service to the affected set and then
deletes the collected identifiers from the pending set. -/
def appendServiceCountChangeNamespace (s : CacheState) (changeNs : List String) :
    List String × CacheState :=
  let acc := s.pendingServices.foldl
    (fun (acc : List String × List String) kv =>
      match SMap.load s.ids kv.1 with
      | none => acc
      | some svc => (addNs acc.1 svc.nspace, acc.2 ++ [kv.1]))
    (changeNs, [])
  (acc.1, { s with pendingServices := acc.2.foldl SMap.erase s.pendingServices })

/-- The per-namespace recount of postProcessUpdatedServices: a Range over
the members of the namespace counting services and summing the instance
counts obtained from the instance cache. -/
def countNamespace (inst : InstCache) (spaces : SMap Service) : NamespaceServiceCount :=
  spaces.foldl
    (fun count kv =>
      let insCnt := inst.getInstancesCountByServiceID kv.2.id
      { serviceCount := count.serviceCount + 1,
        instanceCnt :=
          { totalInstanceCount :=
              count.instanceCnt.totalInstanceCount + insCnt.totalInstanceCount,
            healthyInstanceCount :=
              count.instanceCnt.healthyInstanceCount + insCnt.healthyInstanceCount } })
    { serviceCount := 0,
      instanceCnt := { totalInstanceCount := 0, healthyInstanceCount := 0 } }

/-- One affected namespace inside postProcessUpdatedServices: a namespace
absent from the name index has its aggregate deleted, otherwise the
aggregate is stored recomputed from scratch. -/
def recomputeNamespaceCnt (inst : InstCache) (s : CacheState) (ns : String) : CacheState :=
  match SMap.load s.names ns with
  | none => { s with namespaceServiceCnt := SMap.erase s.namespaceServiceCnt ns }
  | some value =>
    { s with namespaceServiceCnt :=
        SMap.store s.namespaceServiceCnt ns (countNamespace inst value) }

/-- Mirror of postProcessUpdatedServices: drain the pending set into the
affected-namespace set, then recompute the aggregate of every affected
namespace. -/
def postProcessUpdatedServices (inst : InstCache) (s : CacheState) (affect : List String) :
    CacheState :=
  let drained := appendServiceCountChangeNamespace s affect
  drained.1.foldl (recomputeNamespaceCnt inst) drained.2

/-- One deferred alias record of postProcessServiceAlias: skip when the
target is absent from the primary index, link when the alias is present,
unlink when the alias is absent. -/
def postAliasOne (s : CacheState) (al : Service) : CacheState :=
  let aliasExist := (SMap.load s.ids al.id).isSome
  match SMap.load s.ids al.reference with
  | none => s
  | some aliasFor =>
    if aliasExist then { s with aliasBucket := addServiceAlias s.aliasBucket al aliasFor }
    else { s with aliasBucket := delServiceAlias s.aliasBucket al aliasFor }

/-- Mirror of postProcessServiceAlias: the deferred alias records are
processed in batch order after all entities were applied. -/
def postProcessServiceAlias (s : CacheState) (aliases : List Service) : CacheState :=
  aliases.foldl postAliasOne s

/-- The loop accumulator of setServices. -/
structure MergeAcc where
  state : CacheState
  changeNs : List String
  svcCount : Int
  aliases : List Service
  notifs : List RevisionNotify
  update : Nat
  del : Nat
  lastMtime : Int

/-- One entity of the setServices loop: a soft delete removes the record
from every index, publishes an exists-false notification and decrements the
candidate running total; an upsert stores the record in the primary, name,
listing and cl5 indices, publishes an exists-true notification and
increments the candidate running total only when the identifier was
absent. -/
def mergeOne (acc : MergeAcc) (service : Service) : MergeAcc :=
  let lastMtime := max acc.lastMtime service.mtime
  let aliases := if service.IsAlias then acc.aliases ++ [service] else acc.aliases
  let changeNs := addNs acc.changeNs service.nspace
  if !service.valid then
    { state := removeServices acc.state service,
      changeNs := changeNs, svcCount := acc.svcCount - 1, aliases := aliases,
      notifs := acc.notifs ++ [{ serviceID := service.id, valid := false }],
      update := acc.update, del := acc.del + 1, lastMtime := lastMtime }
  else
    let exist := (SMap.load acc.state.ids service.id).isSome
    let svcCount := if exist then acc.svcCount else acc.svcCount + 1
    let s0 := acc.state
    let ids := SMap.store s0.ids service.id service
    let serviceList := s0.serviceList.addService service
    let spaces := (SMap.load s0.names service.nspace).getD []
    let names := SMap.store s0.names service.nspace (SMap.store spaces service.name service)
    let s1 := updateCl5SidAndNames
      { s0 with ids := ids, serviceList := serviceList, names := names } service
    { state := s1, changeNs := changeNs, svcCount := svcCount, aliases := aliases,
      notifs := acc.notifs ++ [{ serviceID := service.id, valid := true }],
      update := acc.update + 1, del := acc.del, lastMtime := lastMtime }

/-- The result of a merge: the new state, the published notifications in
order, the computed watermark and the update and delete counts. -/
structure MergeResult where
  state : CacheState
  notifs : List RevisionNotify
  lastMtime : Int
  update : Nat
  del : Nat

/-- Mirror of setServices: apply every entity of the batch, write the
candidate running total back, run the deferred alias pass, run the
per-namespace reconciliation and finally recompute the listing revision
tokens once. -/
def setServices (inst : InstCache) (lastMtime0 : Int) (s : CacheState)
    (services : List Service) : MergeResult :=
  if services.isEmpty then
    { state := s, notifs := [], lastMtime := lastMtime0, update := 0, del := 0 }
  else
    let acc := services.foldl mergeOne
      { state := s, changeNs := [], svcCount := s.serviceCount, aliases := [],
        notifs := [], update := 0, del := 0, lastMtime := lastMtime0 }
    let s1 := { acc.state with serviceCount := acc.svcCount }
    let s2 := postProcessServiceAlias s1 acc.aliases
    let s3 := postProcessUpdatedServices inst s2 acc.changeNs
    let s4 := { s3 with serviceList := s3.serviceList.reloadRevision }
    { state := s4, notifs := acc.notifs, lastMtime := acc.lastMtime,
      update := acc.update, del := acc.del }

/-! Generic fold characterizations used to analyse the merge loop. -/

/-- The effect of the last selected element of a list, if any. -/
def lastWrite {α β : Type} (P : α → Bool) (f : α → β) (L : List α) : Option β :=
  L.foldl (fun cur y => if P y then some (f y) else cur) none

/-! Characterizations of the whole merge loop. -/

/-- The per-key effect of a batch on the primary index: the last entity of
the batch carrying the key either writes itself or deletes the key. -/
def idsEffect (L : List Service) (k : String) : Option (Option Service) :=
  lastWrite (fun e => decide (e.id = k)) (fun e => if e.valid then some e else none) L

/-- The per-key effect of a batch on the namespace and name index. -/
def namesEffect (L : List Service) (ns nm : String) : Option (Option Service) :=
  lastWrite (fun e => decide (e.nspace = ns ∧ e.name = nm))
    (fun e => if e.valid then some e else none) L

/-- The per-key effect of a batch on the listing bucket membership. -/
def svcMapEffect (L : List Service) (ns i : String) : Option (Option Service) :=
  lastWrite (fun e => decide (e.nspace = ns ∧ e.id = i))
    (fun e => if e.valid then some e else none) L

/-! Structural analysis of the post-processing stages. -/

/-- The bucket update of one deferred alias record, as a function of the
primary index. -/
def bucketStep (ids : SMap Service) (b : AliasBucket) (a : Service) : AliasBucket :=
  match SMap.load ids a.reference with
  | none => b
  | some aliasFor =>
    if (SMap.load ids a.id).isSome then insert (a.id, aliasFor.id) b
    else b.erase (a.id, aliasFor.id)

/-- The Range body of the drain inside appendServiceCountChangeNamespace. -/
def drainStep (s : CacheState) (acc : List String × List String) (kv : String × Unit) :
    List String × List String :=
  match SMap.load s.ids kv.1 with
  | none => acc
  | some svc => (addNs acc.1 svc.nspace, acc.2 ++ [kv.1])

/-- One affected namespace of the recount, as a function of the name
index. -/
def cntStep (inst : InstCache) (names : SMap (SMap Service))
    (m : SMap NamespaceServiceCount) (ns : String) : SMap NamespaceServiceCount :=
  match SMap.load names ns with
  | none => SMap.erase m ns
  | some value => SMap.store m ns (countNamespace inst value)

/-- The initial merge accumulator of setServices. -/
def initAcc (lm : Int) (s : CacheState) : MergeAcc :=
  { state := s, changeNs := [], svcCount := s.serviceCount, aliases := [],
    notifs := [], update := 0, del := 0, lastMtime := lm }

/-- A trivial instance cache collaborator used in concrete runs. -/
def inst0 : InstCache :=
  { getServicePorts := fun _ => [],
    getInstancesCountByServiceID := fun _ =>
      { totalInstanceCount := 0, healthyInstanceCount := 0 } }

/-- A live service fixture in namespace n. -/
def svcX : Service :=
  { id := "x", nspace := "n", name := "a", reference := "", meta := [],
    mtime := 0, valid := true, ports := "", servicePorts := [] }

/-- The soft-delete record of svcX. -/
def tombX : Service := { svcX with valid := false }

/-- The cache state after merging the single live fixture service. -/
def c3s1 : CacheState := (setServices inst0 0 initialState [svcX]).state

/-- The cache state after a second merge that soft-deletes it again. -/
def c3s2 : CacheState := (setServices inst0 0 c3s1 [tombX]).state

/-- An alias fixture referencing the fixture service svcX. -/
def aliasA : Service :=
  { id := "al", nspace := "n", name := "aname", reference := "x", meta := [],
    mtime := 0, valid := true, ports := "", servicePorts := [] }

/-- A state whose primary index holds the alias and its target. -/
def sAlias : CacheState :=
  { initialState with ids := [("al", aliasA), ("x", svcX)] }

/-- Agreement of the primary index and the namespace and name index: each
holds exactly the records of the other, as the identical value. -/
def Agrees (s : CacheState) : Prop :=
  (∀ id svc, SMap.load s.ids id = some svc →
     load2 s.names svc.nspace svc.name = some svc) ∧
  (∀ ns spaces nm svc, SMap.load s.names ns = some spaces →
     SMap.load spaces nm = some svc → SMap.load s.ids svc.id = some svc)

/-- The strengthened inductive invariant behind the agreement: every stored
record is keyed by its own identifier, carries the namespace and name
assigned to that identifier, and is present in the other index. -/
def IndexInv (attr : String → String × String) (s : CacheState) : Prop :=
  (∀ id svc, SMap.load s.ids id = some svc →
     svc.id = id ∧ (svc.nspace, svc.name) = attr id ∧
     load2 s.names svc.nspace svc.name = some svc) ∧
  (∀ ns spaces, SMap.load s.names ns = some spaces →
     ∀ nm svc, SMap.load spaces nm = some svc →
       svc.nspace = ns ∧ svc.name = nm ∧ (ns, nm) = attr svc.id ∧
       SMap.load s.ids svc.id = some svc)

/-- States reachable by initialize, merge batches, removes and clear, where
every record of every batch carries the namespace and name assigned to its
identifier.  CleanNamespace and the cache-miss load are deliberately not
steps here. -/
inductive Reach (attr : String → String × String) : CacheState → Prop
  | init : Reach attr initialState
  | step_set (inst : InstCache) (lm : Int) (s : CacheState) (batch : List Service)
      (hb : ∀ svc ∈ batch, (svc.nspace, svc.name) = attr svc.id)
      (hs : Reach attr s) : Reach attr (setServices inst lm s batch).state
  | step_remove (s : CacheState) (svc : Service)
      (h : (svc.nspace, svc.name) = attr svc.id)
      (hs : Reach attr s) : Reach attr (removeServices s svc)
  | step_clear (s : CacheState) (hs : Reach attr s) : Reach attr (clearState s)

/-- A fixture service whose name equals its identifier, matching the
witness attribute assignment. -/
def svcW : Service :=
  { id := "a", nspace := "n", name := "a", reference := "", meta := [],
    mtime := 0, valid := true, ports := "", servicePorts := [] }

/-- Whether one deferred alias record addresses the link pair p, given the
primary index. -/
def aliasTouches (ids : SMap Service) (p : String × String) (a : Service) : Bool :=
  match SMap.load ids a.reference with
  | none => false
  | some aliasFor => decide ((a.id, aliasFor.id) = p)

/-- The merge-loop accumulator of one setServices run. -/
def mergedAcc (lm : Int) (s : CacheState) (L : List Service) : MergeAcc :=
  L.foldl mergeOne (initAcc lm s)

/-- The state after the serviceCount write-back and the alias pass of one
setServices run. -/
def postAliasState (lm : Int) (s : CacheState) (L : List Service) : CacheState :=
  postProcessServiceAlias
    { (mergedAcc lm s L).state with serviceCount := (mergedAcc lm s L).svcCount }
    (mergedAcc lm s L).aliases

/-- The affected-namespace set actually recomputed by one setServices run,
after the pending drain. -/
def affectSet (lm : Int) (s : CacheState) (L : List Service) : List String :=
  (appendServiceCountChangeNamespace (postAliasState lm s L)
    (mergedAcc lm s L).changeNs).1

/-- The fixture cl5 service whose sid maps to cl5 name X. -/
def svcB : Service :=
  { id := "b", nspace := "n", name := "sidB", reference := "",
    meta := [("internal-cl5-sid", "1"), ("internal-cl5-name", "X")],
    mtime := 0, valid := true, ports := "", servicePorts := [] }

/-- A second cl5 service with a different sid and the same cl5 name. -/
def svcA : Service :=
  { id := "a", nspace := "n", name := "sidA", reference := "",
    meta := [("internal-cl5-sid", "1"), ("internal-cl5-name", "X")],
    mtime := 0, valid := true, ports := "", servicePorts := [] }

/-- The soft-delete record of svcB. -/
def tombB : Service := { svcB with valid := false, meta := [] }

/-- The state holding svcB, then the batch applied once and twice. -/
def c2s0 : CacheState := (setServices inst0 0 initialState [svcB]).state

/-- One application of the batch upserting svcA and deleting svcB. -/
def c2s1 : CacheState := (setServices inst0 0 c2s0 [svcA, tombB]).state

/-- A second application of the identical batch. -/
def c2s2 : CacheState := (setServices inst0 0 c2s1 [svcA, tombB]).state

namespace SMap

@[simp] theorem load_nil {V : Type} (key : String) : load ([] : SMap V) key = none := rfl

@[simp] theorem load_store_self {V : Type} (m : SMap V) (key : String) (val : V) :
    load (store m key val) key = some val := by
  induction m with
  | nil => simp [store, load]
  | cons kv rest ih =>
    obtain ⟨k, v⟩ := kv
    by_cases h : k = key
    · simp [store, h, load]
    · simp [store, h, load, ih]

theorem load_store_of_ne {V : Type} (m : SMap V) {key key' : String} (val : V)
    (h : key' ≠ key) : load (store m key val) key' = load m key' := by
  induction m with
  | nil => simp [store, load, Ne.symm h]
  | cons kv rest ih =>
    obtain ⟨k, v⟩ := kv
    by_cases hk : k = key
    · subst hk
      simp [store, load, Ne.symm h]
    · simp only [store, if_neg hk, load]
      by_cases hk' : k = key'
      · simp [hk']
      · simp [hk', ih]

@[simp] theorem load_erase_self {V : Type} (m : SMap V) (key : String) :
    load (erase m key) key = none := by
  induction m with
  | nil => simp [erase]
  | cons kv rest ih =>
    obtain ⟨k, v⟩ := kv
    by_cases h : k = key
    · simp [erase, h, ih]
    · simp [erase, h, load, ih]

theorem load_erase_of_ne {V : Type} (m : SMap V) {key key' : String}
    (h : key' ≠ key) : load (erase m key) key' = load m key' := by
  induction m with
  | nil => simp [erase]
  | cons kv rest ih =>
    obtain ⟨k, v⟩ := kv
    by_cases hk : k = key
    · subst hk
      simp [erase, load, Ne.symm h, ih]
    · simp only [erase, if_neg hk, load]
      by_cases hk' : k = key'
      · simp [hk']
      · simp [hk', ih]

theorem length_store_of_none {V : Type} (m : SMap V) {key : String} (val : V)
    (h : load m key = none) : (store m key val).length = m.length + 1 := by
  induction m with
  | nil => simp [store]
  | cons kv rest ih =>
    obtain ⟨k, v⟩ := kv
    by_cases hk : k = key
    · simp [load, hk] at h
    · simp only [load, if_neg hk] at h
      simp [store, hk, ih h]

theorem length_store_of_some {V : Type} (m : SMap V) {key : String} {w : V} (val : V)
    (h : load m key = some w) : (store m key val).length = m.length := by
  induction m with
  | nil => simp [load] at h
  | cons kv rest ih =>
    obtain ⟨k, v⟩ := kv
    by_cases hk : k = key
    · simp [store, hk]
    · simp only [load, if_neg hk] at h
      simp [store, hk, ih h]

theorem erase_of_load_none {V : Type} (m : SMap V) {key : String}
    (h : load m key = none) : erase m key = m := by
  induction m with
  | nil => simp [erase]
  | cons kv rest ih =>
    obtain ⟨k, v⟩ := kv
    by_cases hk : k = key
    · simp [load, hk] at h
    · simp only [load, if_neg hk] at h
      simp [erase, hk, ih h]

theorem mem_keys_iff_isSome {V : Type} (m : SMap V) (key : String) :
    key ∈ keys m ↔ (load m key).isSome := by
  induction m with
  | nil => simp [keys, load]
  | cons kv rest ih =>
    obtain ⟨k, v⟩ := kv
    by_cases hk : k = key
    · simp [keys, load, hk]
    · simpa [keys, load, hk, Ne.symm hk] using ih

theorem length_erase_of_some {V : Type} (m : SMap V) {key : String} {w : V}
    (hnd : NodupKeys m) (h : load m key = some w) :
    (erase m key).length + 1 = m.length := by
  induction m with
  | nil => simp [load] at h
  | cons kv rest ih =>
    obtain ⟨k, v⟩ := kv
    have hnd' : NodupKeys rest := (List.nodup_cons.mp hnd).2
    by_cases hk : k = key
    · subst hk
      have hk' : k ∉ keys rest := (List.nodup_cons.mp hnd).1
      have : load rest k = none := by
        cases hload : load rest k with
        | none => rfl
        | some w' =>
          exact absurd ((mem_keys_iff_isSome rest k).mpr (by simp [hload])) hk'
      simp [erase, erase_of_load_none rest this]
    · simp only [load, if_neg hk] at h
      simp [erase, hk, ih hnd' h]

theorem nodupKeys_store {V : Type} (m : SMap V) (key : String) (val : V)
    (hnd : NodupKeys m) : NodupKeys (store m key val) := by
  induction m with
  | nil => simp [store, NodupKeys, keys]
  | cons kv rest ih =>
    obtain ⟨k, v⟩ := kv
    obtain ⟨hk, hrest⟩ := List.nodup_cons.mp hnd
    by_cases h : k = key
    · subst h
      simp only [store, if_pos rfl]
      exact List.nodup_cons.mpr ⟨hk, hrest⟩
    · simp only [store, if_neg h]
      refine List.nodup_cons.mpr ⟨?_, ih hrest⟩
      intro hmem
      have h1 : (load (store rest key val) k).isSome :=
        (mem_keys_iff_isSome _ k).mp hmem
      rw [load_store_of_ne rest val h] at h1
      exact hk ((mem_keys_iff_isSome rest k).mpr h1)

theorem nodupKeys_erase {V : Type} (m : SMap V) (key : String)
    (hnd : NodupKeys m) : NodupKeys (erase m key) := by
  induction m with
  | nil => simp [erase, hnd]
  | cons kv rest ih =>
    obtain ⟨k, v⟩ := kv
    obtain ⟨hk, hrest⟩ := List.nodup_cons.mp hnd
    by_cases h : k = key
    · simp only [erase, if_pos h]
      exact ih hrest
    · simp only [erase, if_neg h]
      refine List.nodup_cons.mpr ⟨?_, ih hrest⟩
      intro hmem
      have h1 : (load (erase rest key) k).isSome :=
        (mem_keys_iff_isSome _ k).mp hmem
      rw [load_erase_of_ne rest h] at h1
      exact hk ((mem_keys_iff_isSome rest k).mpr h1)

theorem load_eq_some_of_mem {V : Type} {m : SMap V} {key : String} {v : V}
    (hnd : NodupKeys m) (h : (key, v) ∈ m) : load m key = some v := by
  induction m with
  | nil => simp at h
  | cons kv rest ih =>
    obtain ⟨k, w⟩ := kv
    obtain ⟨hk, hrest⟩ := List.nodup_cons.mp hnd
    rcases List.mem_cons.mp h with h1 | h1
    · obtain ⟨h2, h3⟩ : key = k ∧ v = w := by simpa using h1
      subst h2; subst h3
      simp [load]
    · by_cases hkey : k = key
      · subst hkey
        exact absurd ((mem_keys_iff_isSome rest k).mpr
          (by simp [ih hrest h1])) hk
      · simp [load, hkey, ih hrest h1]

theorem mem_of_load_eq_some {V : Type} {m : SMap V} {key : String} {v : V}
    (h : load m key = some v) : (key, v) ∈ m := by
  induction m with
  | nil => simp [load] at h
  | cons kv rest ih =>
    obtain ⟨k, w⟩ := kv
    by_cases hk : k = key
    · simp only [load, if_pos hk] at h
      exact List.mem_cons.mpr (Or.inl (by simp [hk, Option.some.inj h]))
    · simp only [load, if_neg hk] at h
      exact List.mem_cons.mpr (Or.inr (ih h))

theorem nodup_entries {V : Type} {m : SMap V} (hnd : NodupKeys m) : m.Nodup :=
  List.Nodup.of_map Prod.fst hnd

end SMap

theorem foldl_lastWrite {α β : Type} (P : α → Bool) (f : α → β) :
    ∀ (L : List α) (c : Option β),
      L.foldl (fun cur y => if P y then some (f y) else cur) c
        = (lastWrite P f L).elim c some := by
  intro L
  induction L with
  | nil => intro c; rfl
  | cons x rest ih =>
    intro c
    by_cases h : P x
    · simp only [List.foldl_cons, if_pos h, lastWrite]
      rw [ih (some (f x))]
      cases lastWrite P f rest <;> rfl
    · simp only [List.foldl_cons, if_neg h, lastWrite]
      exact ih c

@[simp] theorem lastWrite_nil {α β : Type} (P : α → Bool) (f : α → β) :
    lastWrite P f [] = none := rfl

theorem lastWrite_cons {α β : Type} (P : α → Bool) (f : α → β) (x : α) (rest : List α) :
    lastWrite P f (x :: rest)
      = (lastWrite P f rest).elim (if P x then some (f x) else none) some := by
  by_cases h : P x
  · have h1 : lastWrite P f (x :: rest)
        = rest.foldl (fun cur y => if P y then some (f y) else cur) (some (f x)) := by
      simp only [lastWrite, List.foldl_cons, if_pos h]
    rw [h1, foldl_lastWrite P f rest (some (f x)), if_pos h]
  · have h1 : lastWrite P f (x :: rest) = lastWrite P f rest := by
      simp only [lastWrite, List.foldl_cons, if_neg h]
    rw [h1, if_neg h]
    cases lastWrite P f rest <;> rfl

/-- A fold whose steps overwrite the projected component at selected
elements ends at the last override, or keeps the start value. -/
theorem foldl_override {σ α β : Type} (step : σ → α → σ) (proj : σ → Option β)
    (P : α → Bool) (f : α → Option β)
    (hstep : ∀ s a, proj (step s a) = if P a then f a else proj s) :
    ∀ (L : List α) (s : σ),
      proj (L.foldl step s) = (lastWrite P f L).getD (proj s) := by
  intro L
  induction L with
  | nil => intro s; rfl
  | cons a rest ih =>
    intro s
    rw [List.foldl_cons, ih (step s a), hstep s a, lastWrite_cons]
    cases hrest : lastWrite P f rest with
    | none => by_cases h : P a <;> simp [h]
    | some r => simp

/-- A fold whose steps can only force the projected flag on. -/
theorem foldl_any_or {σ α : Type} (step : σ → α → σ) (proj : σ → Bool) (Q : α → Bool)
    (hstep : ∀ s a, proj (step s a) = (Q a || proj s)) :
    ∀ (L : List α) (s : σ), proj (L.foldl step s) = (L.any Q || proj s) := by
  intro L
  induction L with
  | nil => intro s; rfl
  | cons a rest ih =>
    intro s
    rw [List.foldl_cons, ih (step s a), hstep s a, List.any_cons]
    by_cases h : Q a <;> simp [h]

/-- A fold whose steps can only keep or clear the projected flag. -/
theorem foldl_all_and {σ α : Type} (step : σ → α → σ) (proj : σ → Bool) (Q : α → Bool)
    (hstep : ∀ s a, proj (step s a) = (proj s && Q a)) :
    ∀ (L : List α) (s : σ), proj (L.foldl step s) = (proj s && L.all Q) := by
  intro L
  induction L with
  | nil => intro s; simp
  | cons a rest ih =>
    intro s
    rw [List.foldl_cons, ih (step s a), hstep s a, List.all_cons]
    by_cases h : Q a <;> simp [h, Bool.and_assoc]

/-- Two lists without duplicates and with the same members have the same
length. -/
theorem length_eq_of_nodup_of_mem_iff {α : Type} [DecidableEq α] :
    ∀ {l₁ l₂ : List α}, l₁.Nodup → l₂.Nodup → (∀ a, a ∈ l₁ ↔ a ∈ l₂) →
      l₁.length = l₂.length := by
  intro l₁
  induction l₁ with
  | nil =>
    intro l₂ _ _ h
    cases l₂ with
    | nil => rfl
    | cons b bs => exact absurd ((h b).mpr (List.mem_cons_self b bs)) (by simp)
  | cons a as ih =>
    intro l₂ h₁ h₂ h
    have ha : a ∈ l₂ := (h a).mp (List.mem_cons_self a as)
    obtain ⟨ha1, ha2⟩ := List.nodup_cons.mp h₁
    have hpos : 0 < l₂.length := List.length_pos_of_mem ha
    have hlen : l₂.length = (l₂.erase a).length + 1 := by
      rw [List.length_erase_of_mem ha]
      omega
    rw [List.length_cons, hlen]
    congr 1
    refine ih ha2 (h₂.erase a) ?_
    intro b
    rw [List.Nodup.mem_erase_iff h₂]
    constructor
    · intro hb
      exact ⟨fun hba => ha1 (hba ▸ hb), (h b).mp (List.mem_cons_of_mem a hb)⟩
    · rintro ⟨hba, hb⟩
      rcases List.mem_cons.mp ((h b).mpr hb) with h3 | h3
      · exact absurd h3 hba
      · exact h3

/-- Two well-formed maps with identical lookups have permuted entry
lists. -/
theorem perm_of_load_eq {V : Type} [DecidableEq V] {m₁ m₂ : SMap V}
    (h₁ : SMap.NodupKeys m₁) (h₂ : SMap.NodupKeys m₂)
    (h : ∀ k, SMap.load m₁ k = SMap.load m₂ k) : m₁.Perm m₂ := by
  refine (List.perm_ext_iff_of_nodup (SMap.nodup_entries h₁) (SMap.nodup_entries h₂)).mpr ?_
  intro kv
  obtain ⟨k, v⟩ := kv
  constructor
  · intro hm
    exact SMap.mem_of_load_eq_some ((h k) ▸ SMap.load_eq_some_of_mem h₁ hm)
  · intro hm
    exact SMap.mem_of_load_eq_some ((h k).symm ▸ SMap.load_eq_some_of_mem h₂ hm)

/-- Two well-formed maps with identical lookups have the same length. -/
theorem length_eq_of_load_eq {V : Type} [DecidableEq V] {m₁ m₂ : SMap V}
    (h₁ : SMap.NodupKeys m₁) (h₂ : SMap.NodupKeys m₂)
    (h : ∀ k, SMap.load m₁ k = SMap.load m₂ k) : m₁.length = m₂.length :=
  (perm_of_load_eq h₁ h₂ h).length_eq

/-! Frame lemmas for the cl5 update, which only touches the two cl5
indices. -/

theorem updateCl5_ids (s : CacheState) (svc : Service) :
    (updateCl5SidAndNames s svc).ids = s.ids := by
  unfold updateCl5SidAndNames
  dsimp only
  repeat' split
  all_goals rfl

theorem updateCl5_names (s : CacheState) (svc : Service) :
    (updateCl5SidAndNames s svc).names = s.names := by
  unfold updateCl5SidAndNames
  dsimp only
  repeat' split
  all_goals rfl

theorem updateCl5_aliasBucket (s : CacheState) (svc : Service) :
    (updateCl5SidAndNames s svc).aliasBucket = s.aliasBucket := by
  unfold updateCl5SidAndNames
  dsimp only
  repeat' split
  all_goals rfl

theorem updateCl5_serviceList (s : CacheState) (svc : Service) :
    (updateCl5SidAndNames s svc).serviceList = s.serviceList := by
  unfold updateCl5SidAndNames
  dsimp only
  repeat' split
  all_goals rfl

theorem updateCl5_pendingServices (s : CacheState) (svc : Service) :
    (updateCl5SidAndNames s svc).pendingServices = s.pendingServices := by
  unfold updateCl5SidAndNames
  dsimp only
  repeat' split
  all_goals rfl

theorem updateCl5_namespaceServiceCnt (s : CacheState) (svc : Service) :
    (updateCl5SidAndNames s svc).namespaceServiceCnt = s.namespaceServiceCnt := by
  unfold updateCl5SidAndNames
  dsimp only
  repeat' split
  all_goals rfl

theorem updateCl5_serviceCount (s : CacheState) (svc : Service) :
    (updateCl5SidAndNames s svc).serviceCount = s.serviceCount := by
  unfold updateCl5SidAndNames
  dsimp only
  repeat' split
  all_goals rfl

/-! Shape lemmas for one step of the merge loop. -/

theorem mergeOne_state_valid (acc : MergeAcc) (e : Service) (hv : e.valid = true) :
    (mergeOne acc e).state
      = updateCl5SidAndNames
          { acc.state with
            ids := SMap.store acc.state.ids e.id e,
            serviceList := acc.state.serviceList.addService e,
            names := SMap.store acc.state.names e.nspace
              (SMap.store ((SMap.load acc.state.names e.nspace).getD []) e.name e) } e := by
  simp [mergeOne, hv]

theorem mergeOne_state_invalid (acc : MergeAcc) (e : Service) (hv : e.valid = false) :
    (mergeOne acc e).state = removeServices acc.state e := by
  simp [mergeOne, hv]

theorem addService_revisions (b : ServiceNamespaceBucket) (svc : Service) :
    (b.addService svc).revisions = b.revisions := rfl

theorem removeService_revisions (b : ServiceNamespaceBucket) (svc : Service) :
    (b.removeService svc).revisions = b.revisions := by
  unfold ServiceNamespaceBucket.removeService
  split
  all_goals rfl

theorem mergeOne_ids (acc : MergeAcc) (e : Service) :
    (mergeOne acc e).state.ids
      = if e.valid then SMap.store acc.state.ids e.id e
        else SMap.erase acc.state.ids e.id := by
  cases hv : e.valid
  · rw [mergeOne_state_invalid acc e hv]
    simp [removeServices]
  · rw [mergeOne_state_valid acc e hv, updateCl5_ids]
    simp

theorem mergeOne_load_ids (acc : MergeAcc) (e : Service) (k : String) :
    SMap.load (mergeOne acc e).state.ids k
      = if e.id = k then (if e.valid then some e else none)
        else SMap.load acc.state.ids k := by
  rw [mergeOne_ids]
  cases hv : e.valid
  · by_cases hk : e.id = k
    · subst hk; simp
    · simp [hk, SMap.load_erase_of_ne _ (fun h => hk h.symm)]
  · by_cases hk : e.id = k
    · subst hk; simp
    · simp [hk, SMap.load_store_of_ne _ _ (fun h => hk h.symm)]

theorem mergeOne_pending (acc : MergeAcc) (e : Service) :
    (mergeOne acc e).state.pendingServices
      = if e.valid then acc.state.pendingServices
        else SMap.erase acc.state.pendingServices e.id := by
  cases hv : e.valid
  · rw [mergeOne_state_invalid acc e hv]
    simp [removeServices]
  · rw [mergeOne_state_valid acc e hv, updateCl5_pendingServices]
    simp

theorem mergeOne_namespaceServiceCnt (acc : MergeAcc) (e : Service) :
    (mergeOne acc e).state.namespaceServiceCnt = acc.state.namespaceServiceCnt := by
  cases hv : e.valid
  · rw [mergeOne_state_invalid acc e hv]
    simp [removeServices]
  · rw [mergeOne_state_valid acc e hv, updateCl5_namespaceServiceCnt]

theorem mergeOne_revisions (acc : MergeAcc) (e : Service) :
    (mergeOne acc e).state.serviceList.revisions
      = acc.state.serviceList.revisions := by
  cases hv : e.valid
  · rw [mergeOne_state_invalid acc e hv]
    simp [removeServices, removeService_revisions]
  · rw [mergeOne_state_valid acc e hv, updateCl5_serviceList]
    simp [addService_revisions]

theorem mergeOne_changeNs (acc : MergeAcc) (e : Service) :
    (mergeOne acc e).changeNs = addNs acc.changeNs e.nspace := by
  cases hv : e.valid <;> simp [mergeOne, hv]

theorem mergeOne_aliases (acc : MergeAcc) (e : Service) :
    (mergeOne acc e).aliases
      = if e.IsAlias then acc.aliases ++ [e] else acc.aliases := by
  cases hv : e.valid <;> simp [mergeOne, hv]

theorem mergeOne_svcCount (acc : MergeAcc) (e : Service) :
    (mergeOne acc e).svcCount
      = if e.valid then
          (if (SMap.load acc.state.ids e.id).isSome then acc.svcCount else acc.svcCount + 1)
        else acc.svcCount - 1 := by
  cases hv : e.valid <;> simp [mergeOne, hv]

theorem mergeOne_del (acc : MergeAcc) (e : Service) :
    (mergeOne acc e).del = if e.valid then acc.del else acc.del + 1 := by
  cases hv : e.valid <;> simp [mergeOne, hv]

theorem mergeOne_update (acc : MergeAcc) (e : Service) :
    (mergeOne acc e).update = if e.valid then acc.update + 1 else acc.update := by
  cases hv : e.valid <;> simp [mergeOne, hv]

theorem removeServices_names (s : CacheState) (e : Service) :
    (removeServices s e).names
      = match SMap.load s.names e.nspace with
        | none => s.names
        | some spaces => SMap.store s.names e.nspace (SMap.erase spaces e.name) := rfl

theorem mergeOne_load2_names (acc : MergeAcc) (e : Service) (ns nm : String) :
    load2 (mergeOne acc e).state.names ns nm
      = if e.nspace = ns ∧ e.name = nm then (if e.valid then some e else none)
        else load2 acc.state.names ns nm := by
  cases hv : e.valid
  case false =>
    rw [mergeOne_state_invalid acc e hv, removeServices_names]
    cases hsp : SMap.load acc.state.names e.nspace with
    | none =>
      by_cases hns : e.nspace = ns
      · subst hns
        by_cases hnm : e.name = nm
        · simp [load2, hsp, hnm]
        · simp [load2, hsp, hnm]
      · simp [load2, hns]
    | some spaces =>
      by_cases hns : e.nspace = ns
      · subst hns
        by_cases hnm : e.name = nm
        · subst hnm
          simp [load2, hsp]
        · simp [load2, hsp, SMap.load_erase_of_ne _ (fun h => hnm h.symm), hnm]
      · simp [load2, SMap.load_store_of_ne _ _ (fun h => hns h.symm), hns]
  case true =>
    rw [mergeOne_state_valid acc e hv, updateCl5_names]
    by_cases hns : e.nspace = ns
    · subst hns
      by_cases hnm : e.name = nm
      · subst hnm
        simp [load2]
      · simp only [load2, SMap.load_store_self]
        rw [SMap.load_store_of_ne _ _ (fun h => hnm h.symm)]
        cases hsp : SMap.load acc.state.names e.nspace with
        | none => simp [hsp, hnm]
        | some m => simp [hsp, hnm]
    · simp only [load2]
      rw [SMap.load_store_of_ne _ _ (fun h => hns h.symm)]
      simp [hns]

theorem mergeOne_isSome_names (acc : MergeAcc) (e : Service) (ns : String) :
    (SMap.load (mergeOne acc e).state.names ns).isSome
      = ((e.valid && decide (e.nspace = ns))
          || (SMap.load acc.state.names ns).isSome) := by
  cases hv : e.valid
  case false =>
    rw [mergeOne_state_invalid acc e hv, removeServices_names]
    cases hsp : SMap.load acc.state.names e.nspace with
    | none => simp
    | some spaces =>
      by_cases hns : e.nspace = ns
      · subst hns
        simp [hsp]
      · rw [SMap.load_store_of_ne _ _ (fun h => hns h.symm)]
        simp
  case true =>
    rw [mergeOne_state_valid acc e hv, updateCl5_names]
    by_cases hns : e.nspace = ns
    · subst hns
      simp
    · rw [show (SMap.load
          (SMap.store acc.state.names e.nspace
            (SMap.store ((SMap.load acc.state.names e.nspace).getD []) e.name e)) ns)
          = SMap.load acc.state.names ns
          from SMap.load_store_of_ne _ _ (fun h => hns h.symm)]
      simp [hns]

theorem removeServices_svcMap (s : CacheState) (e : Service) :
    (removeServices s e).serviceList.svcMap
      = match SMap.load s.serviceList.svcMap e.nspace with
        | none => s.serviceList.svcMap
        | some spaces => SMap.store s.serviceList.svcMap e.nspace (SMap.erase spaces e.id) := by
  show (s.serviceList.removeService e).svcMap = _
  unfold ServiceNamespaceBucket.removeService
  split
  all_goals simp_all

theorem mergeOne_load2_svcMap (acc : MergeAcc) (e : Service) (ns i : String) :
    load2 (mergeOne acc e).state.serviceList.svcMap ns i
      = if e.nspace = ns ∧ e.id = i then (if e.valid then some e else none)
        else load2 acc.state.serviceList.svcMap ns i := by
  cases hv : e.valid
  case false =>
    rw [mergeOne_state_invalid acc e hv, removeServices_svcMap]
    cases hsp : SMap.load acc.state.serviceList.svcMap e.nspace with
    | none =>
      by_cases hns : e.nspace = ns
      · subst hns
        by_cases hi : e.id = i
        · simp [load2, hsp, hi]
        · simp [load2, hsp, hi]
      · simp [load2, hns]
    | some spaces =>
      by_cases hns : e.nspace = ns
      · subst hns
        by_cases hi : e.id = i
        · subst hi
          simp [load2, hsp]
        · simp [load2, hsp, SMap.load_erase_of_ne _ (fun h => hi h.symm), hi]
      · simp [load2, SMap.load_store_of_ne _ _ (fun h => hns h.symm), hns]
  case true =>
    rw [mergeOne_state_valid acc e hv, updateCl5_serviceList]
    show load2 (acc.state.serviceList.addService e).svcMap ns i = _
    unfold ServiceNamespaceBucket.addService
    by_cases hns : e.nspace = ns
    · subst hns
      by_cases hi : e.id = i
      · subst hi
        simp [load2]
      · simp only [load2, SMap.load_store_self]
        rw [SMap.load_store_of_ne _ _ (fun h => hi h.symm)]
        cases hsp : SMap.load acc.state.serviceList.svcMap e.nspace with
        | none => simp [hsp, hi]
        | some m => simp [hsp, hi]
    · simp only [load2]
      rw [SMap.load_store_of_ne _ _ (fun h => hns h.symm)]
      simp [hns]

theorem mergeOne_isSome_svcMap (acc : MergeAcc) (e : Service) (ns : String) :
    (SMap.load (mergeOne acc e).state.serviceList.svcMap ns).isSome
      = ((e.valid && decide (e.nspace = ns))
          || (SMap.load acc.state.serviceList.svcMap ns).isSome) := by
  cases hv : e.valid
  case false =>
    rw [mergeOne_state_invalid acc e hv, removeServices_svcMap]
    cases hsp : SMap.load acc.state.serviceList.svcMap e.nspace with
    | none => simp
    | some spaces =>
      by_cases hns : e.nspace = ns
      · subst hns
        simp [hsp]
      · rw [SMap.load_store_of_ne _ _ (fun h => hns h.symm)]
        simp
  case true =>
    rw [mergeOne_state_valid acc e hv, updateCl5_serviceList]
    show (SMap.load (acc.state.serviceList.addService e).svcMap ns).isSome = _
    unfold ServiceNamespaceBucket.addService
    by_cases hns : e.nspace = ns
    · subst hns
      simp
    · show (SMap.load (SMap.store acc.state.serviceList.svcMap e.nspace _) ns).isSome = _
      rw [SMap.load_store_of_ne _ _ (fun h => hns h.symm)]
      simp [hns]

theorem mergeOne_mem_aliasBucket (acc : MergeAcc) (e : Service) (p : String × String) :
    p ∈ (mergeOne acc e).state.aliasBucket
      ↔ p ∈ acc.state.aliasBucket ∧ (e.valid = true ∨ (p.1 ≠ e.id ∧ p.2 ≠ e.id)) := by
  cases hv : e.valid
  case false =>
    rw [mergeOne_state_invalid acc e hv]
    show p ∈ cleanServiceAlias acc.state.aliasBucket e ↔ _
    simp [cleanServiceAlias, Finset.mem_filter]
  case true =>
    rw [mergeOne_state_valid acc e hv, updateCl5_aliasBucket]
    simp

theorem mergeAll_load_ids (L : List Service) (acc : MergeAcc) (k : String) :
    SMap.load (L.foldl mergeOne acc).state.ids k
      = (idsEffect L k).getD (SMap.load acc.state.ids k) := by
  unfold idsEffect
  exact foldl_override mergeOne (fun a => SMap.load a.state.ids k)
    (fun e => decide (e.id = k)) (fun e => if e.valid then some e else none)
    (fun s a => by
      dsimp only
      rw [mergeOne_load_ids]
      by_cases h : a.id = k <;> simp [h]) L acc

theorem mergeAll_load2_names (L : List Service) (acc : MergeAcc) (ns nm : String) :
    load2 (L.foldl mergeOne acc).state.names ns nm
      = (namesEffect L ns nm).getD (load2 acc.state.names ns nm) := by
  unfold namesEffect
  exact foldl_override mergeOne (fun a => load2 a.state.names ns nm)
    (fun e => decide (e.nspace = ns ∧ e.name = nm))
    (fun e => if e.valid then some e else none)
    (fun s a => by
      dsimp only
      rw [mergeOne_load2_names]
      by_cases h : a.nspace = ns ∧ a.name = nm <;> simp [h]) L acc

theorem mergeAll_load2_svcMap (L : List Service) (acc : MergeAcc) (ns i : String) :
    load2 (L.foldl mergeOne acc).state.serviceList.svcMap ns i
      = (svcMapEffect L ns i).getD (load2 acc.state.serviceList.svcMap ns i) := by
  unfold svcMapEffect
  exact foldl_override mergeOne (fun a => load2 a.state.serviceList.svcMap ns i)
    (fun e => decide (e.nspace = ns ∧ e.id = i))
    (fun e => if e.valid then some e else none)
    (fun s a => by
      dsimp only
      rw [mergeOne_load2_svcMap]
      by_cases h : a.nspace = ns ∧ a.id = i <;> simp [h]) L acc

theorem mergeAll_load_pending (L : List Service) (acc : MergeAcc) (k : String) :
    SMap.load (L.foldl mergeOne acc).state.pendingServices k
      = (lastWrite (fun e => !e.valid && decide (e.id = k))
          (fun _ => (none : Option Unit)) L).getD
          (SMap.load acc.state.pendingServices k) := by
  exact foldl_override mergeOne (fun a => SMap.load a.state.pendingServices k)
    (fun e => !e.valid && decide (e.id = k)) (fun _ => (none : Option Unit))
    (fun s a => by
      dsimp only
      rw [mergeOne_pending]
      cases hv : a.valid
      · by_cases h : a.id = k
        · subst h; simp
        · simp [h, SMap.load_erase_of_ne _ (fun h2 => h h2.symm)]
      · simp) L acc

theorem mergeAll_isSome_names (L : List Service) (acc : MergeAcc) (ns : String) :
    (SMap.load (L.foldl mergeOne acc).state.names ns).isSome
      = (L.any (fun e => e.valid && decide (e.nspace = ns))
          || (SMap.load acc.state.names ns).isSome) :=
  foldl_any_or mergeOne (fun a => (SMap.load a.state.names ns).isSome)
    (fun e => e.valid && decide (e.nspace = ns))
    (fun s a => mergeOne_isSome_names s a ns) L acc

theorem mergeAll_isSome_svcMap (L : List Service) (acc : MergeAcc) (ns : String) :
    (SMap.load (L.foldl mergeOne acc).state.serviceList.svcMap ns).isSome
      = (L.any (fun e => e.valid && decide (e.nspace = ns))
          || (SMap.load acc.state.serviceList.svcMap ns).isSome) :=
  foldl_any_or mergeOne (fun a => (SMap.load a.state.serviceList.svcMap ns).isSome)
    (fun e => e.valid && decide (e.nspace = ns))
    (fun s a => mergeOne_isSome_svcMap s a ns) L acc

theorem mergeAll_mem_aliasBucket (L : List Service) :
    ∀ (acc : MergeAcc) (p : String × String),
      p ∈ (L.foldl mergeOne acc).state.aliasBucket
        ↔ p ∈ acc.state.aliasBucket ∧
            ∀ e ∈ L, e.valid = true ∨ (p.1 ≠ e.id ∧ p.2 ≠ e.id) := by
  induction L with
  | nil => intro acc p; simp
  | cons a rest ih =>
    intro acc p
    rw [List.foldl_cons, ih, mergeOne_mem_aliasBucket]
    constructor
    · rintro ⟨⟨hb, ha⟩, hrest⟩
      refine ⟨hb, fun e he => ?_⟩
      rcases List.mem_cons.mp he with h | h
      · exact h ▸ ha
      · exact hrest e h
    · rintro ⟨hb, hall⟩
      exact ⟨⟨hb, hall a (List.mem_cons_self a rest)⟩,
        fun e he => hall e (List.mem_cons_of_mem a he)⟩

theorem mergeAll_namespaceServiceCnt (L : List Service) :
    ∀ acc : MergeAcc,
      (L.foldl mergeOne acc).state.namespaceServiceCnt
        = acc.state.namespaceServiceCnt := by
  induction L with
  | nil => intro acc; rfl
  | cons a rest ih =>
    intro acc
    rw [List.foldl_cons, ih, mergeOne_namespaceServiceCnt]

theorem mergeAll_revisions (L : List Service) :
    ∀ acc : MergeAcc,
      (L.foldl mergeOne acc).state.serviceList.revisions
        = acc.state.serviceList.revisions := by
  induction L with
  | nil => intro acc; rfl
  | cons a rest ih =>
    intro acc
    rw [List.foldl_cons, ih, mergeOne_revisions]

theorem mergeAll_changeNs (L : List Service) :
    ∀ acc : MergeAcc,
      (L.foldl mergeOne acc).changeNs
        = L.foldl (fun l e => addNs l e.nspace) acc.changeNs := by
  induction L with
  | nil => intro acc; rfl
  | cons a rest ih =>
    intro acc
    rw [List.foldl_cons, ih, mergeOne_changeNs, List.foldl_cons]

theorem mergeAll_aliases (L : List Service) :
    ∀ acc : MergeAcc,
      (L.foldl mergeOne acc).aliases
        = acc.aliases ++ L.filter (fun e => e.IsAlias) := by
  induction L with
  | nil => intro acc; simp
  | cons a rest ih =>
    intro acc
    rw [List.foldl_cons, ih, mergeOne_aliases]
    by_cases h : a.IsAlias
    · simp [h, List.filter_cons]
    · simp [h, List.filter_cons]

theorem mergeAll_del (L : List Service) :
    ∀ acc : MergeAcc,
      (L.foldl mergeOne acc).del
        = acc.del + (L.filter (fun e => !e.valid)).length := by
  induction L with
  | nil => intro acc; simp
  | cons a rest ih =>
    intro acc
    rw [List.foldl_cons, ih, mergeOne_del, List.filter_cons]
    cases hv : a.valid
    · simp
      omega
    · simp

theorem mergeAll_nodup_ids (L : List Service) :
    ∀ acc : MergeAcc, SMap.NodupKeys acc.state.ids →
      SMap.NodupKeys (L.foldl mergeOne acc).state.ids := by
  induction L with
  | nil => intro acc h; exact h
  | cons a rest ih =>
    intro acc h
    rw [List.foldl_cons]
    refine ih _ ?_
    rw [mergeOne_ids]
    cases a.valid
    · exact SMap.nodupKeys_erase _ _ h
    · exact SMap.nodupKeys_store _ _ _ h

theorem postAliasOne_eq (s : CacheState) (a : Service) :
    postAliasOne s a = { s with aliasBucket := bucketStep s.ids s.aliasBucket a } := by
  unfold postAliasOne bucketStep
  dsimp only
  cases SMap.load s.ids a.reference
  · rfl
  · dsimp only
    by_cases h : (SMap.load s.ids a.id).isSome <;>
      simp [h, addServiceAlias, delServiceAlias]

theorem postProcessServiceAlias_eq (s : CacheState) (l : List Service) :
    postProcessServiceAlias s l
      = { s with aliasBucket := l.foldl (bucketStep s.ids) s.aliasBucket } := by
  induction l generalizing s with
  | nil => rfl
  | cons a rest ih =>
    have h1 : postProcessServiceAlias s (a :: rest)
        = postProcessServiceAlias (postAliasOne s a) rest := rfl
    rw [h1, ih, postAliasOne_eq, List.foldl_cons]

theorem mem_addNs (l : List String) (n x : String) : x ∈ addNs l n ↔ x ∈ l ∨ x = n := by
  unfold addNs
  by_cases h : n ∈ l
  · simp only [if_pos h]
    constructor
    · exact Or.inl
    · rintro (hx | rfl)
      · exact hx
      · exact h
  · simp [if_neg h, List.mem_append]

theorem SMap.mem_unit_iff (m : SMap Unit) (k : String) :
    (k, ()) ∈ m ↔ (SMap.load m k).isSome := by
  constructor
  · intro h
    induction m with
    | nil => simp at h
    | cons kv rest ih =>
      obtain ⟨k0, u0⟩ := kv
      rcases List.mem_cons.mp h with h1 | h1
      · have : k = k0 := by simpa using congrArg Prod.fst h1
        simp [SMap.load, this]
      · by_cases hk : k0 = k
        · simp [SMap.load, hk]
        · simpa [SMap.load, hk] using ih h1
  · intro h
    cases hl : SMap.load m k with
    | none => rw [hl] at h; simp at h
    | some u =>
      cases u
      exact SMap.mem_of_load_eq_some hl

theorem foldl_erase_load {V : Type} (l : List String) :
    ∀ (m : SMap V) (k : String),
      SMap.load (l.foldl SMap.erase m) k
        = if k ∈ l then none else SMap.load m k := by
  induction l with
  | nil => intro m k; simp
  | cons a rest ih =>
    intro m k
    rw [List.foldl_cons, ih]
    by_cases hk : k = a
    · subst hk
      by_cases hr : k ∈ rest
      · simp [hr]
      · simp [hr]
    · by_cases hr : k ∈ rest
      · simp [hr, hk]
      · simp [hr, hk, SMap.load_erase_of_ne _ hk]

theorem appendSCCN_eq (s : CacheState) (changeNs : List String) :
    appendServiceCountChangeNamespace s changeNs
      = ((s.pendingServices.foldl (drainStep s) (changeNs, [])).1,
         { s with pendingServices := (((s.pendingServices.foldl (drainStep s) (changeNs, [])).2).foldl SMap.erase s.pendingServices) }) := rfl

theorem drainFold_collected (s : CacheState) (entries : List (String × Unit)) :
    ∀ (acc : List String × List String) (k : String),
      k ∈ (entries.foldl (drainStep s) acc).2
        ↔ k ∈ acc.2 ∨ ((k, ()) ∈ entries ∧ (SMap.load s.ids k).isSome) := by
  induction entries with
  | nil => intro acc k; simp
  | cons kv rest ih =>
    intro acc k
    obtain ⟨k0, u0⟩ := kv
    cases u0
    rw [List.foldl_cons]
    cases hl : SMap.load s.ids k0 with
    | none =>
      rw [show drainStep s acc (k0, ()) = acc by simp [drainStep, hl]]
      rw [ih]
      constructor
      · rintro (h | ⟨h1, h2⟩)
        · exact Or.inl h
        · exact Or.inr ⟨List.mem_cons_of_mem _ h1, h2⟩
      · rintro (h | ⟨h1, h2⟩)
        · exact Or.inl h
        · rcases List.mem_cons.mp h1 with h3 | h3
          · have : k = k0 := by simpa using congrArg Prod.fst h3
            subst this
            rw [hl] at h2
            simp at h2
          · exact Or.inr ⟨h3, h2⟩
    | some svc =>
      rw [show drainStep s acc (k0, ())
            = (addNs acc.1 svc.nspace, acc.2 ++ [k0]) by simp [drainStep, hl]]
      rw [ih]
      constructor
      · rintro (h | ⟨h1, h2⟩)
        · rcases List.mem_append.mp h with h3 | h3
          · exact Or.inl h3
          · have : k = k0 := by simpa using h3
            subst this
            exact Or.inr ⟨List.mem_cons_self _ _, by simp [hl]⟩
        · exact Or.inr ⟨List.mem_cons_of_mem _ h1, h2⟩
      · rintro (h | ⟨h1, h2⟩)
        · exact Or.inl (List.mem_append.mpr (Or.inl h))
        · rcases List.mem_cons.mp h1 with h3 | h3
          · have : k = k0 := by simpa using congrArg Prod.fst h3
            subst this
            exact Or.inl (List.mem_append.mpr (Or.inr (by simp)))
          · exact Or.inr ⟨h3, h2⟩

theorem drainFold_changeNs (s : CacheState) (entries : List (String × Unit)) :
    ∀ (acc : List String × List String) (ns : String),
      ns ∈ (entries.foldl (drainStep s) acc).1
        ↔ ns ∈ acc.1 ∨ (∃ k svc, (k, ()) ∈ entries
            ∧ SMap.load s.ids k = some svc ∧ svc.nspace = ns) := by
  induction entries with
  | nil => intro acc ns; simp
  | cons kv rest ih =>
    intro acc ns
    obtain ⟨k0, u0⟩ := kv
    cases u0
    rw [List.foldl_cons]
    cases hl : SMap.load s.ids k0 with
    | none =>
      rw [show drainStep s acc (k0, ()) = acc by simp [drainStep, hl]]
      rw [ih]
      constructor
      · rintro (h | ⟨k, svc, h1, h2, h3⟩)
        · exact Or.inl h
        · exact Or.inr ⟨k, svc, List.mem_cons_of_mem _ h1, h2, h3⟩
      · rintro (h | ⟨k, svc, h1, h2, h3⟩)
        · exact Or.inl h
        · rcases List.mem_cons.mp h1 with h4 | h4
          · have : k = k0 := by simpa using congrArg Prod.fst h4
            subst this
            rw [hl] at h2
            simp at h2
          · exact Or.inr ⟨k, svc, h4, h2, h3⟩
    | some svc0 =>
      rw [show drainStep s acc (k0, ())
            = (addNs acc.1 svc0.nspace, acc.2 ++ [k0]) by simp [drainStep, hl]]
      rw [ih]
      constructor
      · rintro (h | ⟨k, svc, h1, h2, h3⟩)
        · rcases (mem_addNs _ _ _).mp h with h3 | h3
          · exact Or.inl h3
          · exact Or.inr ⟨k0, svc0, List.mem_cons_self _ _, hl, h3.symm⟩
        · exact Or.inr ⟨k, svc, List.mem_cons_of_mem _ h1, h2, h3⟩
      · rintro (h | ⟨k, svc, h1, h2, h3⟩)
        · exact Or.inl ((mem_addNs _ _ _).mpr (Or.inl h))
        · rcases List.mem_cons.mp h1 with h4 | h4
          · have hk : k = k0 := by simpa using congrArg Prod.fst h4
            subst hk
            rw [hl] at h2
            have : svc0 = svc := by simpa using h2
            subst this
            exact Or.inl ((mem_addNs _ _ _).mpr (Or.inr h3.symm))
          · exact Or.inr ⟨k, svc, h4, h2, h3⟩

theorem append_pending_load (s : CacheState) (changeNs : List String) (k : String) :
    SMap.load (appendServiceCountChangeNamespace s changeNs).2.pendingServices k
      = if (SMap.load s.ids k).isSome then none
        else SMap.load s.pendingServices k := by
  rw [appendSCCN_eq]
  show SMap.load (((s.pendingServices.foldl (drainStep s) (changeNs, [])).2).foldl
      SMap.erase s.pendingServices) k = _
  rw [foldl_erase_load]
  by_cases hp : (SMap.load s.ids k).isSome
  · by_cases hmem : (k, ()) ∈ s.pendingServices
    · simp [(drainFold_collected s s.pendingServices (changeNs, []) k).mpr
        (Or.inr ⟨hmem, hp⟩), hp]
    · have hnone : SMap.load s.pendingServices k = none := by
        cases hl : SMap.load s.pendingServices k with
        | none => rfl
        | some u =>
          cases u
          exact absurd (SMap.mem_of_load_eq_some hl) hmem
      by_cases hcol : k ∈ (s.pendingServices.foldl (drainStep s) (changeNs, [])).2
      · simp [hcol, hp]
      · simp [hcol, hp, hnone]
  · have hcol : ¬ k ∈ (s.pendingServices.foldl (drainStep s) (changeNs, [])).2 := by
      intro h
      rcases (drainFold_collected s s.pendingServices (changeNs, []) k).mp h with h1 | h1
      · simp at h1
      · exact hp h1.2
    simp [hcol, hp]

theorem append_changeNs_mem (s : CacheState) (changeNs : List String) (ns : String) :
    ns ∈ (appendServiceCountChangeNamespace s changeNs).1
      ↔ ns ∈ changeNs ∨ (∃ k svc, (SMap.load s.pendingServices k).isSome
          ∧ SMap.load s.ids k = some svc ∧ svc.nspace = ns) := by
  rw [appendSCCN_eq]
  show ns ∈ (s.pendingServices.foldl (drainStep s) (changeNs, [])).1 ↔ _
  rw [drainFold_changeNs]
  constructor
  · rintro (h | ⟨k, svc, h1, h2, h3⟩)
    · exact Or.inl h
    · exact Or.inr ⟨k, svc, (SMap.mem_unit_iff _ _).mp h1, h2, h3⟩
  · rintro (h | ⟨k, svc, h1, h2, h3⟩)
    · exact Or.inl h
    · exact Or.inr ⟨k, svc, (SMap.mem_unit_iff _ _).mpr h1, h2, h3⟩

theorem append_no_resolved (s : CacheState) (changeNs : List String)
    (h : ∀ k, (SMap.load s.pendingServices k).isSome → SMap.load s.ids k = none) :
    appendServiceCountChangeNamespace s changeNs = (changeNs, s) := by
  rw [appendSCCN_eq]
  have hfold : ∀ (entries : List (String × Unit)),
      (∀ kv ∈ entries, SMap.load s.ids kv.1 = none) →
      ∀ acc, entries.foldl (drainStep s) acc = acc := by
    intro entries
    induction entries with
    | nil => intro _ acc; rfl
    | cons kv rest ih =>
      intro hall acc
      rw [List.foldl_cons,
        show drainStep s acc kv = acc by
          simp [drainStep, hall kv (List.mem_cons_self kv rest)]]
      exact ih (fun kv2 h2 => hall kv2 (List.mem_cons_of_mem kv h2)) acc
  have hall : ∀ kv ∈ s.pendingServices, SMap.load s.ids kv.1 = none := by
    intro kv hkv
    obtain ⟨k0, u0⟩ := kv
    cases u0
    exact h k0 ((SMap.mem_unit_iff _ _).mp hkv)
  rw [hfold s.pendingServices hall (changeNs, [])]
  rfl

theorem recomputeNamespaceCnt_eq (inst : InstCache) (s : CacheState) (ns : String) :
    recomputeNamespaceCnt inst s ns
      = { s with namespaceServiceCnt := cntStep inst s.names s.namespaceServiceCnt ns } := by
  unfold recomputeNamespaceCnt cntStep
  cases SMap.load s.names ns <;> rfl

theorem recomputeFold_eq (inst : InstCache) (l : List String) :
    ∀ s : CacheState,
      l.foldl (recomputeNamespaceCnt inst) s
        = { s with namespaceServiceCnt :=
              l.foldl (cntStep inst s.names) s.namespaceServiceCnt } := by
  induction l with
  | nil => intro s; rfl
  | cons a rest ih =>
    intro s
    rw [List.foldl_cons, ih, recomputeNamespaceCnt_eq, List.foldl_cons]

theorem cntFold_load (inst : InstCache) (names : SMap (SMap Service)) (l : List String) :
    ∀ (m : SMap NamespaceServiceCount) (ns : String),
      SMap.load (l.foldl (cntStep inst names) m) ns
        = if ns ∈ l then (SMap.load names ns).map (countNamespace inst)
          else SMap.load m ns := by
  induction l with
  | nil => intro m ns; simp
  | cons a rest ih =>
    intro m ns
    rw [List.foldl_cons, ih]
    by_cases hr : ns ∈ rest
    · simp [hr]
    · by_cases ha : a = ns
      · subst ha
        have : SMap.load (cntStep inst names m a) a
            = (SMap.load names a).map (countNamespace inst) := by
          unfold cntStep
          cases SMap.load names a <;> simp
        simp [hr, this]
      · have : SMap.load (cntStep inst names m a) ns = SMap.load m ns := by
          unfold cntStep
          cases SMap.load names a with
          | none => exact SMap.load_erase_of_ne _ (fun h2 => ha h2.symm)
          | some v => exact SMap.load_store_of_ne _ _ (fun h2 => ha h2.symm)
        simp [hr, ha, Ne.symm ha, this]

theorem postProcessUpdatedServices_eq (inst : InstCache) (s : CacheState)
    (affect : List String) :
    postProcessUpdatedServices inst s affect
      = { s with
          pendingServices :=
            (appendServiceCountChangeNamespace s affect).2.pendingServices,
          namespaceServiceCnt :=
            ((appendServiceCountChangeNamespace s affect).1).foldl
              (cntStep inst s.names) s.namespaceServiceCnt } := by
  unfold postProcessUpdatedServices
  rw [recomputeFold_eq]
  rfl

theorem setServices_state_pipeline (inst : InstCache) (lm : Int) (s : CacheState)
    (L : List Service) (h : ¬ L.isEmpty = true) :
    (setServices inst lm s L).state
      = (let acc := L.foldl mergeOne (initAcc lm s)
         let s1 := { acc.state with serviceCount := acc.svcCount }
         let s2 := postProcessServiceAlias s1 acc.aliases
         let s3 := postProcessUpdatedServices inst s2 acc.changeNs
         { s3 with serviceList := s3.serviceList.reloadRevision }) := by
  unfold setServices
  rw [if_neg h]
  rfl

theorem foldl_count {α : Type} (l : List α) :
    ∀ n : Nat, l.foldl (fun c _ => c + 1) n = n + l.length := by
  induction l with
  | nil => intro n; simp
  | cons a rest ih =>
    intro n
    rw [List.foldl_cons, ih]
    simp
    omega

theorem GetServicesCount_eq_length (s : CacheState) :
    GetServicesCount s = s.ids.length := by
  unfold GetServicesCount
  rw [foldl_count]
  simp

/-- C8: when the identifier is absent from the primary index and the store
fetch returns an error or a nil entity, GetOrLoadServiceByID adds no entry
to the cache, returns the not-found result nil, and the fetch error is
discarded (the operation has no error channel at all). -/
theorem claim_C8 (inst : InstCache) (storage : StoreGetServiceByID) (s : CacheState)
    (id : String) (hmiss : SMap.load s.ids id = none)
    (hfail : (storage id).2 ≠ none ∨ (storage id).1 = none) :
    GetOrLoadServiceByID inst storage s id = (none, s) := by
  unfold GetOrLoadServiceByID
  by_cases hid : id = ""
  · simp [hid]
  · rw [if_neg hid]
    rcases hst : storage id with ⟨fetched, err⟩
    rw [hst] at hfail
    dsimp only at hfail
    simp only [hmiss, hst]
    cases err with
    | some e => cases fetched <;> simp [hmiss]
    | none =>
      cases fetched with
      | none => simp [hmiss]
      | some svc =>
        rcases hfail with h | h
        · exact absurd rfl h
        · simp at h

/-- C8 witness at a concrete erroring store. -/
theorem claim_C8_witness :
    GetOrLoadServiceByID inst0 (fun _ => (none, some "boom")) initialState "x"
      = (none, initialState) :=
  claim_C8 inst0 (fun _ => (none, some "boom")) initialState "x" rfl
    (Or.inl (by simp))

theorem iterRange_cons (inst : InstCache) (proc : ServiceIterProc)
    (k : String) (v : Service) (rest : List (String × Service)) :
    iterRange inst proc ((k, v) :: rest)
      = match proc k (fillServicePorts inst v) with
        | (_, some e) => some e
        | (false, none) => none
        | (true, none) => iterRange inst proc rest := rfl

theorem iterRange_append_benign (inst : InstCache) (proc : ServiceIterProc)
    (pre l : List (String × Service))
    (hpre : ∀ kv ∈ pre, proc kv.1 (fillServicePorts inst kv.2) = (true, none)) :
    iterRange inst proc (pre ++ l) = iterRange inst proc l := by
  induction pre with
  | nil => simp
  | cons kv rest ih =>
    obtain ⟨k0, v0⟩ := kv
    have h0 := hpre (k0, v0) (List.mem_cons_self _ _)
    rw [List.cons_append, iterRange_cons, h0]
    simpa using ih (fun kv2 h2 => hpre kv2 (List.mem_cons_of_mem _ h2))

/-- C9: when every record before position p is visited with continue-true
and no error, a visitor error at position p stops the iteration and is
returned exactly; a false continue flag without error at position p stops
the iteration with result nil; in both cases the cache state, in particular
the primary index, comes back unchanged. -/
theorem claim_C9 (inst : InstCache) (s : CacheState) (proc : ServiceIterProc)
    (pre rest : List (String × Service)) (k : String) (svc : Service)
    (hsplit : s.ids = pre ++ (k, svc) :: rest)
    (hpre : ∀ kv ∈ pre, proc kv.1 (fillServicePorts inst kv.2) = (true, none)) :
    (∀ c e, proc k (fillServicePorts inst svc) = (c, some e) →
        IteratorServices inst s proc = (some e, s)) ∧
    ((proc k (fillServicePorts inst svc) = (false, none)) →
        IteratorServices inst s proc = (none, s)) := by
  constructor
  · intro c e hv
    unfold IteratorServices
    rw [hsplit, iterRange_append_benign inst proc pre _ hpre, iterRange_cons, hv]
    cases c <;> rfl
  · intro hv
    unfold IteratorServices
    rw [hsplit, iterRange_append_benign inst proc pre _ hpre, iterRange_cons, hv]

/-- C9 witness: a two-entry index, benign first visit, error on the second;
and separately an early stop without error on the first. -/
theorem claim_C9_witness :
    (IteratorServices inst0
        { initialState with ids := [("a", svcX), ("x", svcX)] }
        (fun k _ => if k = "a" then (true, none) else (true, some "bad"))
      = (some "bad", { initialState with ids := [("a", svcX), ("x", svcX)] })) ∧
    (IteratorServices inst0
        { initialState with ids := [("a", svcX), ("x", svcX)] }
        (fun _ _ => (false, none))
      = (none, { initialState with ids := [("a", svcX), ("x", svcX)] })) := by
  constructor
  · exact (claim_C9 inst0 _ _ [("a", svcX)] [] "x" svcX rfl
      (by intro kv hkv; simp at hkv; subst hkv; simp [fillServicePorts, inst0])).1
      true "bad" (by simp [fillServicePorts, inst0])
  · exact (claim_C9 inst0 _ _ [] [("x", svcX)] "a" svcX rfl
      (by intro kv hkv; simp at hkv)).2 (by simp [fillServicePorts, inst0])

/-- C10: a successful cache-miss load stores the fetched entity in the
primary id index only, leaving the name index, both legacy cl5 indices, the
namespace listing bucket, the per-namespace aggregates and the running
total serviceCount unchanged; immediately afterwards the id lookup finds
the entity while the name lookup, the namespace listing and the namespace
aggregate are exactly what they were before the load. -/
theorem claim_C10 (inst : InstCache) (storage : StoreGetServiceByID)
    (s : CacheState) (id : String) (svc : Service)
    (hmiss : SMap.load s.ids id = none)
    (hfetch : storage id = (some svc, none))
    (hid : svc.id = id) (hne : id ≠ "") :
    (GetOrLoadServiceByID inst storage s id).1 = some (fillServicePorts inst svc) ∧
    (GetOrLoadServiceByID inst storage s id).2.ids = SMap.store s.ids svc.id svc ∧
    (GetOrLoadServiceByID inst storage s id).2.names = s.names ∧
    (GetOrLoadServiceByID inst storage s id).2.cl5Sid2Name = s.cl5Sid2Name ∧
    (GetOrLoadServiceByID inst storage s id).2.cl5Names = s.cl5Names ∧
    (GetOrLoadServiceByID inst storage s id).2.serviceList = s.serviceList ∧
    (GetOrLoadServiceByID inst storage s id).2.aliasBucket = s.aliasBucket ∧
    (GetOrLoadServiceByID inst storage s id).2.pendingServices = s.pendingServices ∧
    (GetOrLoadServiceByID inst storage s id).2.namespaceServiceCnt
      = s.namespaceServiceCnt ∧
    (GetOrLoadServiceByID inst storage s id).2.serviceCount = s.serviceCount ∧
    GetServiceByID inst (GetOrLoadServiceByID inst storage s id).2 id
      = some (fillServicePorts inst svc) ∧
    (∀ nm ns, GetServiceByName inst (GetOrLoadServiceByID inst storage s id).2 nm ns
      = GetServiceByName inst s nm ns) ∧
    (∀ ns, ListServices (GetOrLoadServiceByID inst storage s id).2 ns
      = ListServices s ns) ∧
    (∀ ns, GetNamespaceCntInfo (GetOrLoadServiceByID inst storage s id).2 ns
      = GetNamespaceCntInfo s ns) ∧
    (∀ c, GetServiceByCl5Name (GetOrLoadServiceByID inst storage s id).2 c
      = GetServiceByCl5Name s c) ∧
    GetServicesCount (GetOrLoadServiceByID inst storage s id).2
      = GetServicesCount s + 1 := by
  have hload : SMap.load (SMap.store s.ids svc.id svc) id = some svc := by
    rw [hid]
    exact SMap.load_store_self _ _ _
  have hrun : GetOrLoadServiceByID inst storage s id
      = (some (fillServicePorts inst svc), { s with ids := SMap.store s.ids svc.id svc }) := by
    unfold GetOrLoadServiceByID
    rw [if_neg hne]
    simp only [hmiss, hfetch]
    simp [hload]
  rw [hrun]
  refine ⟨rfl, rfl, rfl, rfl, rfl, rfl, rfl, rfl, rfl, rfl, ?_, ?_, ?_, ?_, ?_, ?_⟩
  · unfold GetServiceByID
    rw [if_neg hne]
    simp [hload]
  · intro nm ns
    rfl
  · intro ns
    rfl
  · intro ns
    rfl
  · intro c
    rfl
  · rw [GetServicesCount_eq_length, GetServicesCount_eq_length]
    show (SMap.store s.ids svc.id svc).length = s.ids.length + 1
    exact SMap.length_store_of_none _ _ (hid ▸ hmiss)

/-- C10 witness at a concrete store returning the fixture service. -/
theorem claim_C10_witness :
    (GetOrLoadServiceByID inst0 (fun _ => (some svcX, none)) initialState "x").2.names
        = initialState.names ∧
    GetServiceByID inst0
        (GetOrLoadServiceByID inst0 (fun _ => (some svcX, none)) initialState "x").2 "x"
      = some (fillServicePorts inst0 svcX) := by
  have h := claim_C10 inst0 (fun _ => (some svcX, none)) initialState "x" svcX rfl rfl
    rfl (by decide)
  exact ⟨h.2.2.1, h.2.2.2.2.2.2.2.2.2.2.1⟩

/-- C6: the drain of the pending set: after appendServiceCountChangeNamespace
every pending identifier now present in the primary index is gone from the
pending set while absent identifiers stay pending, the namespace of every
resolved service joins the affected set, no other component changes, and
postProcessUpdatedServices performs exactly this drain before recomputing
the aggregates. -/
theorem claim_C6 (inst : InstCache) (s : CacheState) (changeNs : List String) :
    (∀ k, SMap.load (appendServiceCountChangeNamespace s changeNs).2.pendingServices k
        = if (SMap.load s.ids k).isSome then none
          else SMap.load s.pendingServices k) ∧
    (∀ ns, ns ∈ (appendServiceCountChangeNamespace s changeNs).1
        ↔ ns ∈ changeNs ∨ ∃ k svc, (SMap.load s.pendingServices k).isSome
            ∧ SMap.load s.ids k = some svc ∧ svc.nspace = ns) ∧
    (appendServiceCountChangeNamespace s changeNs).2.ids = s.ids ∧
    (appendServiceCountChangeNamespace s changeNs).2.names = s.names ∧
    (postProcessUpdatedServices inst s changeNs).pendingServices
      = (appendServiceCountChangeNamespace s changeNs).2.pendingServices := by
  refine ⟨append_pending_load s changeNs, append_changeNs_mem s changeNs, rfl, rfl, ?_⟩
  rw [postProcessUpdatedServices_eq]

/-- C3 counterexample: after a merge cycle that soft-deletes the only
member of namespace n, the name sub-index of n exists and is empty, yet the
per-namespace count map still holds an aggregate for n, zeroed in place
instead of removed. -/
theorem claim_C3_counterexample :
    SMap.load c3s2.names "n" = some [] ∧
    SMap.load c3s2.namespaceServiceCnt "n"
      = some { serviceCount := 0,
               instanceCnt := { totalInstanceCount := 0, healthyInstanceCount := 0 } } := by
  constructor
  · decide
  · decide

/-- C3 amended: the reconciler removes the aggregate of an affected
namespace only when the namespace is entirely absent from the name index
(as after CleanNamespace); an affected namespace whose name sub-index
exists but has zero members keeps an aggregate entry, stored zeroed in
place. -/
theorem claim_C3 (inst : InstCache) (s : CacheState) (affect : List String)
    (ns : String) (hmem : ns ∈ affect) :
    (SMap.load s.names ns = none →
      SMap.load (postProcessUpdatedServices inst s affect).namespaceServiceCnt ns
        = none) ∧
    (SMap.load s.names ns = some [] →
      SMap.load (postProcessUpdatedServices inst s affect).namespaceServiceCnt ns
        = some { serviceCount := 0,
                 instanceCnt := { totalInstanceCount := 0,
                                  healthyInstanceCount := 0 } }) := by
  have hmem2 : ns ∈ (appendServiceCountChangeNamespace s affect).1 :=
    (append_changeNs_mem s affect ns).mpr (Or.inl hmem)
  constructor
  · intro h
    rw [postProcessUpdatedServices_eq]
    show SMap.load (((appendServiceCountChangeNamespace s affect).1).foldl
      (cntStep inst s.names) s.namespaceServiceCnt) ns = none
    rw [cntFold_load]
    simp [hmem2, h]
  · intro h
    rw [postProcessUpdatedServices_eq]
    show SMap.load (((appendServiceCountChangeNamespace s affect).1).foldl
      (cntStep inst s.names) s.namespaceServiceCnt) ns = _
    rw [cntFold_load]
    simp [hmem2, h]
    rfl

/-- C3 witness at the empty initial state, where the namespace is absent
from the name index. -/
theorem claim_C3_witness :
    (SMap.load initialState.names "n" = none →
      SMap.load (postProcessUpdatedServices inst0 initialState ["n"]).namespaceServiceCnt "n"
        = none) ∧
    (SMap.load initialState.names "n" = some [] →
      SMap.load (postProcessUpdatedServices inst0 initialState ["n"]).namespaceServiceCnt "n"
        = some { serviceCount := 0,
                 instanceCnt := { totalInstanceCount := 0,
                                  healthyInstanceCount := 0 } }) :=
  claim_C3 inst0 initialState ["n"] "n" (by decide)

theorem bucketStep_mem_other (ids : SMap Service) (b : AliasBucket) (a0 : Service)
    (x : String) (t : String) (hx : x ≠ a0.id) :
    ((x, t) ∈ bucketStep ids b a0 ↔ (x, t) ∈ b) := by
  unfold bucketStep
  cases SMap.load ids a0.reference with
  | none => exact Iff.rfl
  | some f =>
    dsimp only
    by_cases h : (SMap.load ids a0.id).isSome
    · rw [if_pos h]
      show (x, t) ∈ insert (a0.id, f.id) b ↔ _
      rw [Finset.mem_insert]
      constructor
      · rintro (h1 | h1)
        · exact absurd (by simpa using congrArg Prod.fst h1) hx
        · exact h1
      · exact Or.inr
    · rw [if_neg h]
      show (x, t) ∈ b.erase (a0.id, f.id) ↔ _
      rw [Finset.mem_erase]
      constructor
      · exact fun h1 => h1.2
      · intro h1
        exact ⟨fun h2 => hx (by simpa using congrArg Prod.fst h2), h1⟩

theorem aliasFold_frame (ids : SMap Service) (l : List Service) :
    ∀ (b : AliasBucket) (x t : String), x ∉ l.map Service.id →
      ((x, t) ∈ l.foldl (bucketStep ids) b ↔ (x, t) ∈ b) := by
  induction l with
  | nil => intro b x t _; exact Iff.rfl
  | cons a0 rest ih =>
    intro b x t hx
    rw [List.map_cons] at hx
    have hx1 : x ≠ a0.id := fun h => hx (h ▸ List.mem_cons_self _ _)
    have hx2 : x ∉ rest.map Service.id := fun h => hx (List.mem_cons_of_mem _ h)
    rw [List.foldl_cons, ih _ x t hx2, bucketStep_mem_other ids b a0 x t hx1]

theorem aliasFold_outcome (ids : SMap Service)
    (hkeys : ∀ k v, SMap.load ids k = some v → v.id = k) :
    ∀ (l : List Service) (b : AliasBucket) (a : Service),
      a ∈ l → (l.map Service.id).Nodup →
      (((SMap.load ids a.id).isSome → (SMap.load ids a.reference).isSome →
         (a.id, a.reference) ∈ l.foldl (bucketStep ids) b) ∧
       (SMap.load ids a.id = none → (SMap.load ids a.reference).isSome →
         (a.id, a.reference) ∉ l.foldl (bucketStep ids) b) ∧
       (SMap.load ids a.reference = none →
         ∀ t, ((a.id, t) ∈ l.foldl (bucketStep ids) b ↔ (a.id, t) ∈ b))) := by
  intro l
  induction l with
  | nil =>
    intro b a ha
    simp at ha
  | cons a0 rest ih =>
    intro b a ha hnd
    obtain ⟨h0, hndrest⟩ := List.nodup_cons.mp hnd
    rw [List.foldl_cons]
    rcases List.mem_cons.mp ha with rfl | hmem
    · have hxid : a.id ∉ rest.map Service.id := h0
      refine ⟨?_, ?_, ?_⟩
      · intro h1 h2
        obtain ⟨f, hf⟩ := Option.isSome_iff_exists.mp h2
        have hfid : f.id = a.reference := hkeys _ _ hf
        have hb1 : (a.id, a.reference) ∈ bucketStep ids b a := by
          unfold bucketStep
          rw [hf]
          dsimp only
          rw [if_pos h1, hfid]
          exact Finset.mem_insert_self _ _
        exact (aliasFold_frame ids rest _ _ _ hxid).mpr hb1
      · intro h1 h2
        obtain ⟨f, hf⟩ := Option.isSome_iff_exists.mp h2
        have hfid : f.id = a.reference := hkeys _ _ hf
        have hb1 : (a.id, a.reference) ∉ bucketStep ids b a := by
          unfold bucketStep
          rw [hf]
          dsimp only
          rw [if_neg (by simp [h1]), hfid]
          simp
        intro hcon
        exact hb1 ((aliasFold_frame ids rest _ _ _ hxid).mp hcon)
      · intro h1 t
        have hb1 : bucketStep ids b a = b := by
          unfold bucketStep
          rw [h1]
        rw [hb1]
        exact aliasFold_frame ids rest b a.id t hxid
    · have haid : a.id ≠ a0.id := by
        intro h
        exact h0 (h ▸ List.mem_map_of_mem Service.id hmem)
      have hout := ih (bucketStep ids b a0) a hmem hndrest
      refine ⟨hout.1, hout.2.1, ?_⟩
      intro h1 t
      rw [hout.2.2 h1 t]
      exact bucketStep_mem_other ids b a0 a.id t haid

/-- C5: in the deferred alias pass, every record whose alias and target are
both present in the primary index ends linked in the alias bucket, every
record whose target is present but whose alias is absent ends unlinked, and
a record whose target is absent leaves its alias links in the bucket
exactly as they were before the pass. -/
theorem claim_C5 (s : CacheState) (aliases : List Service) (a : Service)
    (ha : a ∈ aliases)
    (hnd : (aliases.map Service.id).Nodup)
    (hkeys : ∀ k v, SMap.load s.ids k = some v → v.id = k) :
    ((SMap.load s.ids a.id).isSome → (SMap.load s.ids a.reference).isSome →
       (a.id, a.reference) ∈ (postProcessServiceAlias s aliases).aliasBucket) ∧
    (SMap.load s.ids a.id = none → (SMap.load s.ids a.reference).isSome →
       (a.id, a.reference) ∉ (postProcessServiceAlias s aliases).aliasBucket) ∧
    (SMap.load s.ids a.reference = none →
       ∀ t, ((a.id, t) ∈ (postProcessServiceAlias s aliases).aliasBucket
              ↔ (a.id, t) ∈ s.aliasBucket)) := by
  rw [postProcessServiceAlias_eq]
  exact aliasFold_outcome s.ids hkeys aliases s.aliasBucket a ha hnd

/-- C5 witness: with alias and target both resident, the pass links them. -/
theorem claim_C5_witness :
    (aliasA.id, aliasA.reference)
      ∈ (postProcessServiceAlias sAlias [aliasA]).aliasBucket := by
  have hkeys : ∀ k v, SMap.load sAlias.ids k = some v → v.id = k := by
    intro k v h
    by_cases h1 : k = "al"
    · subst h1
      have hv : aliasA = v := by simpa [sAlias, SMap.load] using h
      subst hv
      rfl
    · by_cases h2 : k = "x"
      · subst h2
        have hv : svcX = v := by simpa [sAlias, SMap.load] using h
        subst hv
        rfl
      · have : (none : Option Service) = some v := by
          simpa [sAlias, SMap.load, Ne.symm h1, Ne.symm h2] using h.symm
        simp at this
  exact (claim_C5 sAlias [aliasA] aliasA (by decide) (by decide) hkeys).1
    (by decide) (by decide)

theorem mergeAll_count (L : List Service) :
    ∀ acc : MergeAcc,
      SMap.NodupKeys acc.state.ids →
      (L.map Service.id).Nodup →
      (∀ e ∈ L, e.valid = false → (SMap.load acc.state.ids e.id).isSome) →
      ((L.foldl mergeOne acc).state.ids.length
          + (L.filter (fun e => !e.valid)).length
        = acc.state.ids.length
          + (L.filter (fun e =>
              e.valid && !(SMap.load acc.state.ids e.id).isSome)).length) ∧
      ((L.foldl mergeOne acc).svcCount
        = acc.svcCount
          + ((L.filter (fun e =>
              e.valid && !(SMap.load acc.state.ids e.id).isSome)).length : Int)
          - ((L.filter (fun e => !e.valid)).length : Int)) := by
  induction L with
  | nil =>
    intro acc _ _ _
    simp
  | cons e rest ih =>
    intro acc h1 h2 h3
    rw [List.map_cons] at h2
    obtain ⟨h2a, h2b⟩ := List.nodup_cons.mp h2
    have htrans : ∀ e' ∈ rest, SMap.load (mergeOne acc e).state.ids e'.id
        = SMap.load acc.state.ids e'.id := by
      intro e' he'
      rw [mergeOne_load_ids]
      have hne : e.id ≠ e'.id := fun h => h2a (h ▸ List.mem_map_of_mem Service.id he')
      simp [hne]
    have hnd' : SMap.NodupKeys (mergeOne acc e).state.ids := by
      rw [mergeOne_ids]
      cases e.valid
      · exact SMap.nodupKeys_erase _ _ h1
      · exact SMap.nodupKeys_store _ _ _ h1
    have h3' : ∀ e' ∈ rest, e'.valid = false →
        (SMap.load (mergeOne acc e).state.ids e'.id).isSome := by
      intro e' he' hv
      rw [htrans e' he']
      exact h3 e' (List.mem_cons_of_mem _ he') hv
    have hfilter : rest.filter
          (fun x => x.valid && !(SMap.load (mergeOne acc e).state.ids x.id).isSome)
        = rest.filter
          (fun x => x.valid && !(SMap.load acc.state.ids x.id).isSome) := by
      apply List.filter_congr
      intro x hx
      rw [htrans x hx]
    have hstep := ih (mergeOne acc e) hnd' h2b h3'
    rw [hfilter] at hstep
    obtain ⟨hs1, hs2⟩ := hstep
    rw [List.foldl_cons]
    cases hv : e.valid
    case false =>
      have hpres := h3 e (List.mem_cons_self _ _) hv
      obtain ⟨w, hw⟩ := Option.isSome_iff_exists.mp hpres
      have hlen : (mergeOne acc e).state.ids.length + 1 = acc.state.ids.length := by
        rw [mergeOne_ids]
        simp only [hv]
        simpa using SMap.length_erase_of_some acc.state.ids h1 hw
      have hcnt : (mergeOne acc e).svcCount = acc.svcCount - 1 := by
        rw [mergeOne_svcCount]
        simp [hv]
      have hD : (e :: rest).filter (fun x => !x.valid)
          = e :: rest.filter (fun x => !x.valid) := by
        simp [List.filter_cons, hv]
      have hU : (e :: rest).filter
            (fun x => x.valid && !(SMap.load acc.state.ids x.id).isSome)
          = rest.filter
            (fun x => x.valid && !(SMap.load acc.state.ids x.id).isSome) := by
        simp [List.filter_cons, hv]
      refine ⟨?_, ?_⟩
      · rw [hD, hU, List.length_cons]
        omega
      · rw [hD, hU, List.length_cons, hs2, hcnt]
        push_cast
        ring
    case true =>
      cases hsome : (SMap.load acc.state.ids e.id).isSome
      case true =>
        have hlen : (mergeOne acc e).state.ids.length = acc.state.ids.length := by
          rw [mergeOne_ids]
          simp only [hv, if_true]
          obtain ⟨w, hw⟩ := Option.isSome_iff_exists.mp hsome
          exact SMap.length_store_of_some _ _ hw
        have hcnt : (mergeOne acc e).svcCount = acc.svcCount := by
          rw [mergeOne_svcCount]
          simp [hv, hsome]
        have hD : (e :: rest).filter (fun x => !x.valid)
            = rest.filter (fun x => !x.valid) := by
          simp [List.filter_cons, hv]
        have hU : (e :: rest).filter
              (fun x => x.valid && !(SMap.load acc.state.ids x.id).isSome)
            = rest.filter
              (fun x => x.valid && !(SMap.load acc.state.ids x.id).isSome) := by
          simp [List.filter_cons, hv]
          exact Option.isSome_iff_ne_none.mp hsome
        refine ⟨?_, ?_⟩
        · rw [hD, hU]
          omega
        · rw [hD, hU, hs2, hcnt]
      case false =>
        have hnone : SMap.load acc.state.ids e.id = none := by
          cases hl : SMap.load acc.state.ids e.id
          · rfl
          · rw [hl] at hsome
            simp at hsome
        have hlen : (mergeOne acc e).state.ids.length = acc.state.ids.length + 1 := by
          rw [mergeOne_ids]
          simp only [hv, if_true]
          exact SMap.length_store_of_none _ _ hnone
        have hcnt : (mergeOne acc e).svcCount = acc.svcCount + 1 := by
          rw [mergeOne_svcCount]
          simp [hv, hsome]
        have hD : (e :: rest).filter (fun x => !x.valid)
            = rest.filter (fun x => !x.valid) := by
          simp [List.filter_cons, hv]
        have hU : (e :: rest).filter
              (fun x => x.valid && !(SMap.load acc.state.ids x.id).isSome)
            = e :: rest.filter
              (fun x => x.valid && !(SMap.load acc.state.ids x.id).isSome) := by
          simp [List.filter_cons, hv]
          exact hnone
        refine ⟨?_, ?_⟩
        · rw [hD, hU, List.length_cons]
          omega
        · rw [hD, hU, List.length_cons, hs2, hcnt]
          push_cast
          ring

theorem setServices_ids (inst : InstCache) (lm : Int) (s : CacheState)
    (L : List Service) (h : ¬ L.isEmpty = true) :
    (setServices inst lm s L).state.ids
      = (L.foldl mergeOne (initAcc lm s)).state.ids := by
  rw [setServices_state_pipeline inst lm s L h]
  simp only [postProcessUpdatedServices_eq, postProcessServiceAlias_eq]

theorem setServices_serviceCount (inst : InstCache) (lm : Int) (s : CacheState)
    (L : List Service) (h : ¬ L.isEmpty = true) :
    (setServices inst lm s L).state.serviceCount
      = (L.foldl mergeOne (initAcc lm s)).svcCount := by
  rw [setServices_state_pipeline inst lm s L h]
  simp only [postProcessUpdatedServices_eq, postProcessServiceAlias_eq]

/-- C1 counterexample: a batch consisting of one soft-delete of an absent
identifier has U = 0 and D = 1, but countAll does not drop to the predicted
pre + U - D, and the incrementally maintained running total, decremented
anyway, no longer equals the primary index cardinality. -/
theorem claim_C1_counterexample :
    ((GetServicesCount (setServices inst0 0 initialState [tombX]).state : Int)
        ≠ (GetServicesCount initialState : Int) + 0 - 1) ∧
    (setServices inst0 0 initialState [tombX]).state.serviceCount
        ≠ ((setServices inst0 0 initialState [tombX]).state.ids.length : Int) := by
  constructor
  · decide
  · decide

/-- C1 amended: over a batch of distinct identifiers in which every soft
delete targets an identifier present in the primary index, countAll moves
by exactly U - D, the running total moves by exactly U - D, and the running
total equals the primary index cardinality afterwards whenever it did
before. -/
theorem claim_C1 (inst : InstCache) (lm : Int) (s : CacheState) (L : List Service)
    (h1 : SMap.NodupKeys s.ids)
    (h2 : (L.map Service.id).Nodup)
    (h3 : ∀ e ∈ L, e.valid = false → (SMap.load s.ids e.id).isSome) :
    (GetServicesCount (setServices inst lm s L).state
        + (L.filter (fun e => !e.valid)).length
      = GetServicesCount s
        + (L.filter (fun e =>
            e.valid && !(SMap.load s.ids e.id).isSome)).length) ∧
    ((setServices inst lm s L).state.serviceCount
      = s.serviceCount
        + ((L.filter (fun e =>
            e.valid && !(SMap.load s.ids e.id).isSome)).length : Int)
        - ((L.filter (fun e => !e.valid)).length : Int)) ∧
    (s.serviceCount = (s.ids.length : Int) →
      (setServices inst lm s L).state.serviceCount
        = ((setServices inst lm s L).state.ids.length : Int)) := by
  by_cases hL : L.isEmpty = true
  · have hnil : L = [] := List.isEmpty_iff.mp hL
    subst hnil
    unfold setServices
    simp
  · have hcount := mergeAll_count L (initAcc lm s) h1 h2 h3
    rw [GetServicesCount_eq_length, GetServicesCount_eq_length,
      setServices_ids inst lm s L hL, setServices_serviceCount inst lm s L hL]
    refine ⟨hcount.1, hcount.2, ?_⟩
    intro hbal
    have hc1 := hcount.1
    have hc2 := hcount.2
    show (L.foldl mergeOne (initAcc lm s)).svcCount
        = ((L.foldl mergeOne (initAcc lm s)).state.ids.length : Int)
    rw [hc2]
    have hbal2 : (initAcc lm s).svcCount = ((initAcc lm s).state.ids.length : Int) := hbal
    omega

/-- C1 witness: deleting the one resident service of the fixture state. -/
theorem claim_C1_witness :
    (GetServicesCount (setServices inst0 0 c3s1 [tombX]).state
        + ([tombX].filter (fun e => !e.valid)).length
      = GetServicesCount c3s1
        + ([tombX].filter (fun e =>
            e.valid && !(SMap.load c3s1.ids e.id).isSome)).length) ∧
    ((setServices inst0 0 c3s1 [tombX]).state.serviceCount
      = c3s1.serviceCount
        + (([tombX].filter (fun e =>
            e.valid && !(SMap.load c3s1.ids e.id).isSome)).length : Int)
        - (([tombX].filter (fun e => !e.valid)).length : Int)) ∧
    (c3s1.serviceCount = (c3s1.ids.length : Int) →
      (setServices inst0 0 c3s1 [tombX]).state.serviceCount
        = ((setServices inst0 0 c3s1 [tombX]).state.ids.length : Int)) :=
  claim_C1 inst0 0 c3s1 [tombX] (by decide) (by decide) (by decide)

theorem indexInv_congr (attr : String → String × String) {s₁ s₂ : CacheState}
    (h : IndexInv attr s₁) (hids : s₂.ids = s₁.ids) (hnames : s₂.names = s₁.names) :
    IndexInv attr s₂ := by
  unfold IndexInv at h ⊢
  rw [hids, hnames]
  exact h

theorem indexInv_initial (attr : String → String × String) :
    IndexInv attr initialState := by
  constructor
  · intro id svc h
    simp [initialState] at h
  · intro ns spaces h
    simp [initialState] at h

theorem indexInv_upsert (attr : String → String × String)
    (hinj : Function.Injective attr) (s : CacheState) (e : Service)
    (hInv : IndexInv attr s) (he : (e.nspace, e.name) = attr e.id) :
    IndexInv attr
      { s with ids := SMap.store s.ids e.id e,
               names := SMap.store s.names e.nspace
                 (SMap.store ((SMap.load s.names e.nspace).getD []) e.name e) } := by
  obtain ⟨hInv1, hInv2⟩ := hInv
  constructor
  · intro id svc hload
    show svc.id = id ∧ (svc.nspace, svc.name) = attr id ∧
      load2 (SMap.store s.names e.nspace
        (SMap.store ((SMap.load s.names e.nspace).getD []) e.name e)) svc.nspace svc.name
        = some svc
    by_cases hid : e.id = id
    · subst hid
      rw [show SMap.load (SMap.store s.ids e.id e) e.id = some e
          from SMap.load_store_self _ _ _] at hload
      obtain rfl : e = svc := by simpa using hload
      refine ⟨rfl, he, ?_⟩
      unfold load2
      rw [SMap.load_store_self]
      exact SMap.load_store_self _ _ _
    · rw [show SMap.load (SMap.store s.ids e.id e) id = SMap.load s.ids id
          from SMap.load_store_of_ne _ _ (fun h => hid h.symm)] at hload
      obtain ⟨hA, hB, hC⟩ := hInv1 id svc hload
      refine ⟨hA, hB, ?_⟩
      by_cases hns : svc.nspace = e.nspace
      · by_cases hnm : svc.name = e.name
        · exfalso
          have : attr id = attr e.id := by
            rw [← hB, ← he, hns, hnm]
          exact hid (hinj this).symm
        · unfold load2
          rw [hns, SMap.load_store_self]
          dsimp only
          rw [SMap.load_store_of_ne _ _ hnm]
          unfold load2 at hC
          cases hsp : SMap.load s.names e.nspace with
          | none =>
            rw [hns, hsp] at hC
            simp at hC
          | some m =>
            rw [hns, hsp] at hC
            simpa [hsp] using hC
      · unfold load2
        rw [SMap.load_store_of_ne _ _ hns]
        unfold load2 at hC
        exact hC
  · intro ns spaces hns nm svc hsvc
    show svc.nspace = ns ∧ svc.name = nm ∧ (ns, nm) = attr svc.id ∧
      SMap.load (SMap.store s.ids e.id e) svc.id = some svc
    by_cases hnse : e.nspace = ns
    · subst hnse
      rw [SMap.load_store_self] at hns
      have hspaces : SMap.store ((SMap.load s.names e.nspace).getD []) e.name e = spaces := by
        simpa using hns
      subst hspaces
      by_cases hnm : e.name = nm
      · subst hnm
        rw [SMap.load_store_self] at hsvc
        obtain rfl : e = svc := by simpa using hsvc
        exact ⟨rfl, rfl, he, SMap.load_store_self _ _ _⟩
      · rw [SMap.load_store_of_ne _ _ (fun h => hnm h.symm)] at hsvc
        cases hsp : SMap.load s.names e.nspace with
        | none =>
          rw [hsp] at hsvc
          simp at hsvc
        | some m =>
          rw [hsp] at hsvc
          simp only [Option.getD_some] at hsvc
          obtain ⟨hA, hB, hC, hD⟩ := hInv2 e.nspace m hsp nm svc hsvc
          refine ⟨hA, hB, hC, ?_⟩
          by_cases hide : svc.id = e.id
          · exfalso
            have : attr svc.id = attr e.id := by rw [hide]
            rw [← hC, ← he] at this
            exact hnm (by simpa using congrArg Prod.snd this.symm)
          · rw [SMap.load_store_of_ne _ _ hide]
            exact hD
    · rw [SMap.load_store_of_ne _ _ (fun h => hnse h.symm)] at hns
      obtain ⟨hA, hB, hC, hD⟩ := hInv2 ns spaces hns nm svc hsvc
      refine ⟨hA, hB, hC, ?_⟩
      by_cases hide : svc.id = e.id
      · exfalso
        have hii : attr svc.id = attr e.id := by rw [hide]
        rw [← hC, ← he] at hii
        have h2 : ns = e.nspace := by simpa using congrArg Prod.fst hii
        exact hnse h2.symm
      · rw [SMap.load_store_of_ne _ _ hide]
        exact hD

theorem removeServices_ids (s : CacheState) (e : Service) :
    (removeServices s e).ids = SMap.erase s.ids e.id := rfl

theorem indexInv_remove (attr : String → String × String)
    (hinj : Function.Injective attr) (s : CacheState) (e : Service)
    (hInv : IndexInv attr s) (he : (e.nspace, e.name) = attr e.id) :
    IndexInv attr (removeServices s e) := by
  obtain ⟨hInv1, hInv2⟩ := hInv
  constructor
  · intro id svc hload
    rw [removeServices_ids] at hload
    by_cases hid : id = e.id
    · subst hid
      rw [SMap.load_erase_self] at hload
      simp at hload
    · rw [SMap.load_erase_of_ne _ hid] at hload
      obtain ⟨hA, hB, hC⟩ := hInv1 id svc hload
      refine ⟨hA, hB, ?_⟩
      rw [removeServices_names]
      cases hsp : SMap.load s.names e.nspace with
      | none => exact hC
      | some spaces0 =>
        by_cases hns : svc.nspace = e.nspace
        · by_cases hnm : svc.name = e.name
          · exfalso
            have hii : attr id = attr e.id := by
              rw [← hB, ← he, hns, hnm]
            exact hid (hinj hii)
          · unfold load2
            rw [hns, SMap.load_store_self]
            dsimp only
            rw [SMap.load_erase_of_ne _ hnm]
            unfold load2 at hC
            rw [hns, hsp] at hC
            simpa using hC
        · unfold load2
          rw [SMap.load_store_of_ne _ _ hns]
          unfold load2 at hC
          exact hC
  · intro ns spaces hns0 nm svc hsvc
    rw [removeServices_names] at hns0
    rw [removeServices_ids]
    cases hsp : SMap.load s.names e.nspace with
    | none =>
      rw [hsp] at hns0
      dsimp only at hns0
      obtain ⟨hA, hB, hC, hD⟩ := hInv2 ns spaces hns0 nm svc hsvc
      refine ⟨hA, hB, hC, ?_⟩
      by_cases hide : svc.id = e.id
      · exfalso
        have hii : attr svc.id = attr e.id := by rw [hide]
        rw [← hC, ← he] at hii
        have h2 : ns = e.nspace := by simpa using congrArg Prod.fst hii
        rw [h2, hsp] at hns0
        simp at hns0
      · rw [SMap.load_erase_of_ne _ hide]
        exact hD
    | some spaces0 =>
      rw [hsp] at hns0
      dsimp only at hns0
      by_cases hns : ns = e.nspace
      · subst hns
        rw [SMap.load_store_self] at hns0
        have hspaces : SMap.erase spaces0 e.name = spaces := by simpa using hns0
        subst hspaces
        by_cases hnm : nm = e.name
        · exfalso
          subst hnm
          rw [SMap.load_erase_self] at hsvc
          simp at hsvc
        · rw [SMap.load_erase_of_ne _ hnm] at hsvc
          obtain ⟨hA, hB, hC, hD⟩ := hInv2 e.nspace spaces0 hsp nm svc hsvc
          refine ⟨hA, hB, hC, ?_⟩
          by_cases hide : svc.id = e.id
          · exfalso
            have hii : attr svc.id = attr e.id := by rw [hide]
            rw [← hC, ← he] at hii
            have h2 : nm = e.name := by simpa using congrArg Prod.snd hii
            exact hnm h2
          · rw [SMap.load_erase_of_ne _ hide]
            exact hD
      · rw [SMap.load_store_of_ne _ _ hns] at hns0
        obtain ⟨hA, hB, hC, hD⟩ := hInv2 ns spaces hns0 nm svc hsvc
        refine ⟨hA, hB, hC, ?_⟩
        by_cases hide : svc.id = e.id
        · exfalso
          have hii : attr svc.id = attr e.id := by rw [hide]
          rw [← hC, ← he] at hii
          have h2 : ns = e.nspace := by simpa using congrArg Prod.fst hii
          exact hns h2
        · rw [SMap.load_erase_of_ne _ hide]
          exact hD

theorem setServices_names (inst : InstCache) (lm : Int) (s : CacheState)
    (L : List Service) (h : ¬ L.isEmpty = true) :
    (setServices inst lm s L).state.names
      = (L.foldl mergeOne (initAcc lm s)).state.names := by
  rw [setServices_state_pipeline inst lm s L h]
  simp only [postProcessUpdatedServices_eq, postProcessServiceAlias_eq]

theorem indexInv_mergeAll (attr : String → String × String)
    (hinj : Function.Injective attr) (L : List Service) :
    ∀ acc : MergeAcc, IndexInv attr acc.state →
      (∀ e ∈ L, (e.nspace, e.name) = attr e.id) →
      IndexInv attr (L.foldl mergeOne acc).state := by
  induction L with
  | nil =>
    intro acc h _
    exact h
  | cons e rest ih =>
    intro acc h hb
    rw [List.foldl_cons]
    refine ih (mergeOne acc e) ?_ (fun x hx => hb x (List.mem_cons_of_mem _ hx))
    have he := hb e (List.mem_cons_self _ _)
    cases hv : e.valid
    · rw [mergeOne_state_invalid acc e hv]
      exact indexInv_remove attr hinj acc.state e h he
    · rw [mergeOne_state_valid acc e hv]
      refine indexInv_congr attr
        (indexInv_upsert attr hinj acc.state e h he) ?_ ?_
      · rw [updateCl5_ids]
      · rw [updateCl5_names]

theorem reach_indexInv (attr : String → String × String)
    (hinj : Function.Injective attr) (s : CacheState) (h : Reach attr s) :
    IndexInv attr s := by
  induction h with
  | init => exact indexInv_initial attr
  | step_set inst lm s batch hb hs ih =>
    by_cases hL : batch.isEmpty = true
    · have hnil : batch = [] := List.isEmpty_iff.mp hL
      subst hnil
      unfold setServices
      simpa using ih
    · refine indexInv_congr attr
        (indexInv_mergeAll attr hinj batch (initAcc lm s) ih hb) ?_ ?_
      · exact setServices_ids inst lm s batch hL
      · exact setServices_names inst lm s batch hL
  | step_remove s svc hsvc hs ih =>
    exact indexInv_remove attr hinj s svc ih hsvc
  | step_clear s hs ih =>
    refine indexInv_congr attr (indexInv_initial attr) rfl rfl

/-- C4 counterexample: CleanNamespace drops the whole name sub-index of a
namespace but leaves the services of that namespace in the primary index,
so immediately afterwards the two indices disagree. -/
theorem claim_C4_counterexample : ¬ Agrees (CleanNamespace c3s1 "n") := by
  intro h
  have h1 : SMap.load (CleanNamespace c3s1 "n").ids "x" = some svcX := by decide
  have h2 := h.1 "x" svcX h1
  rw [show load2 (CleanNamespace c3s1 "n").names svcX.nspace svcX.name = none
      from by decide] at h2
  simp at h2

/-- C4 amended: over states reachable by initialize, merge batches, the
remove path and clear, where every record carries the namespace and name
injectively assigned to its identifier, the primary index and the
namespace and name index agree: each record of one is present in the other
as the identical value.  CleanNamespace and the single-entity cache-miss
load break the invariant and are excluded. -/
theorem claim_C4 (attr : String → String × String) (s : CacheState)
    (hinj : Function.Injective attr) (h : Reach attr s) : Agrees s := by
  obtain ⟨h1, h2⟩ := reach_indexInv attr hinj s h
  constructor
  · intro id svc hload
    exact (h1 id svc hload).2.2
  · intro ns spaces nm svc hns hsvc
    exact (h2 ns spaces hns nm svc hsvc).2.2.2

/-- C4 witness: one merge of the fixture service from the initial state. -/
theorem claim_C4_witness :
    Agrees (setServices inst0 0 initialState [svcW]).state :=
  claim_C4 (fun i => ("n", i)) _
    (fun a b hab => by simpa using congrArg Prod.snd hab)
    (Reach.step_set inst0 0 initialState [svcW]
      (by
        intro svc hsvc
        rw [List.mem_singleton] at hsvc
        subst hsvc
        rfl)
      Reach.init)

/-! Helper lemmas for the idempotence analysis. -/

theorem lastWrite_eq_none {α β : Type} (P : α → Bool) (f : α → β) :
    ∀ L : List α, lastWrite P f L = none ↔ ∀ a ∈ L, P a = false := by
  intro L
  induction L with
  | nil => simp
  | cons x rest ih =>
    rw [lastWrite_cons]
    cases hrest : lastWrite P f rest with
    | some r =>
      simp only [Option.elim]
      constructor
      · intro h
        simp at h
      · intro h
        rw [(ih.mpr (fun a ha => h a (List.mem_cons_of_mem _ ha)) : _)] at hrest
        simp at hrest
    | none =>
      simp only [Option.elim]
      by_cases hx : P x
      · rw [if_pos hx]
        constructor
        · intro h
          simp at h
        · intro h
          rw [h x (List.mem_cons_self _ _)] at hx
          simp at hx
      · rw [if_neg hx]
        constructor
        · intro _ a ha
          rcases List.mem_cons.mp ha with rfl | ha
          · exact Bool.not_eq_true _ ▸ (by simpa using hx)
          · exact ih.mp hrest a ha
        · intro _
          rfl

theorem lastWrite_eq_some {α β : Type} (P : α → Bool) (f : α → β) :
    ∀ (L : List α) (r : β), lastWrite P f L = some r →
      ∃ a, a ∈ L ∧ P a = true ∧ f a = r := by
  intro L
  induction L with
  | nil => intro r h; simp [lastWrite] at h
  | cons x rest ih =>
    intro r h
    rw [lastWrite_cons] at h
    cases hrest : lastWrite P f rest with
    | some r0 =>
      rw [hrest] at h
      simp only [Option.elim] at h
      obtain ⟨a, ha, hPa, hfa⟩ := ih r0 hrest
      exact ⟨a, List.mem_cons_of_mem _ ha, hPa, hfa.trans (by simpa using h)⟩
    | none =>
      rw [hrest] at h
      simp only [Option.elim] at h
      by_cases hx : P x
      · rw [if_pos hx] at h
        exact ⟨x, List.mem_cons_self _ _, hx, by simpa using h⟩
      · rw [if_neg hx] at h
        simp at h

theorem lastWrite_unique {α β : Type} (P : α → Bool) (f : α → β) :
    ∀ (L : List α) (a : α), a ∈ L → P a = true →
      (∀ b ∈ L, P b = true → b = a) → lastWrite P f L = some (f a) := by
  intro L
  induction L with
  | nil => intro a ha; simp at ha
  | cons x rest ih =>
    intro a ha hPa huniq
    rw [lastWrite_cons]
    by_cases hrest : ∃ b ∈ rest, P b = true
    · obtain ⟨b, hb, hPb⟩ := hrest
      have hba : b = a := huniq b (List.mem_cons_of_mem _ hb) hPb
      subst hba
      rw [ih b hb hPa (fun c hc hPc => huniq c (List.mem_cons_of_mem _ hc) hPc)]
      rfl
    · have hnone : lastWrite P f rest = none := by
        rw [lastWrite_eq_none]
        intro b hb
        cases hPb : P b
        · rfl
        · exact absurd ⟨b, hb, hPb⟩ hrest
      rw [hnone]
      have hxa : x = a := by
        rcases List.mem_cons.mp ha with rfl | hmem
        · rfl
        · exact absurd ⟨a, hmem, hPa⟩ hrest
      subst hxa
      simp [hPa]

theorem SMap.load_mapVals {V W : Type} (f : String → V → W) :
    ∀ (m : SMap V) (k : String),
      SMap.load (m.map (fun kv => (kv.1, f kv.1 kv.2))) k
        = (SMap.load m k).map (f k) := by
  intro m
  induction m with
  | nil => intro k; simp [SMap.load]
  | cons kv rest ih =>
    intro k
    obtain ⟨k0, v0⟩ := kv
    by_cases h : k0 = k
    · subst h
      simp [SMap.load]
    · simp [SMap.load, h, ih]

theorem foldl_override2 {σ α γ : Type} (step : σ → α → σ) (proj : σ → γ)
    (P : α → Bool) (f : α → γ)
    (hstep : ∀ s a, proj (step s a) = if P a then f a else proj s) :
    ∀ (L : List α) (s : σ),
      proj (L.foldl step s) = (lastWrite P f L).getD (proj s) := by
  intro L
  induction L with
  | nil => intro s; rfl
  | cons a rest ih =>
    intro s
    rw [List.foldl_cons, ih (step s a), hstep s a, lastWrite_cons]
    cases hrest : lastWrite P f rest with
    | none => by_cases h : P a <;> simp [h]
    | some r => simp

theorem bucketStep_mem_bool (ids : SMap Service) (b : AliasBucket) (a : Service)
    (p : String × String) :
    decide (p ∈ bucketStep ids b a)
      = if aliasTouches ids p a then (SMap.load ids a.id).isSome
        else decide (p ∈ b) := by
  unfold bucketStep aliasTouches
  cases href : SMap.load ids a.reference with
  | none => simp
  | some f =>
    dsimp only
    by_cases hp : (a.id, f.id) = p
    · subst hp
      simp only [decide_eq_true_eq, if_pos (by simp : decide ((a.id, f.id) = (a.id, f.id)) = true)]
      by_cases hs : (SMap.load ids a.id).isSome
      · rw [if_pos hs, hs]
        simp
      · rw [if_neg hs]
        have hs' : (SMap.load ids a.id).isSome = false := by
          cases h2 : (SMap.load ids a.id).isSome
          · rfl
          · exact absurd h2 hs
        rw [hs']
        simp
    · have ht : decide ((a.id, f.id) = p) = false := by simp [hp]
      rw [ht]
      simp only [Bool.false_eq_true, if_false]
      by_cases hs : (SMap.load ids a.id).isSome
      · rw [if_pos hs]
        simp only [decide_eq_decide, Finset.mem_insert]
        constructor
        · rintro (h1 | h1)
          · exact absurd h1.symm hp
          · exact h1
        · exact Or.inr
      · rw [if_neg hs]
        simp only [decide_eq_decide, Finset.mem_erase]
        constructor
        · exact fun h1 => h1.2
        · intro h1
          exact ⟨fun h2 => hp h2.symm, h1⟩

theorem bucketFold_mem_bool (ids : SMap Service) (l : List Service) (b : AliasBucket)
    (p : String × String) :
    decide (p ∈ l.foldl (bucketStep ids) b)
      = (lastWrite (aliasTouches ids p)
          (fun a => (SMap.load ids a.id).isSome) l).getD (decide (p ∈ b)) :=
  foldl_override2 (bucketStep ids) (fun b => decide (p ∈ b)) _ _
    (fun b a => bucketStep_mem_bool ids b a p) l b

theorem bucketStep_congr {ids₁ ids₂ : SMap Service}
    (h : ∀ k, SMap.load ids₂ k = SMap.load ids₁ k) (b : AliasBucket) (a : Service) :
    bucketStep ids₂ b a = bucketStep ids₁ b a := by
  unfold bucketStep
  rw [h a.reference, h a.id]

theorem bucketFold_congr {ids₁ ids₂ : SMap Service}
    (h : ∀ k, SMap.load ids₂ k = SMap.load ids₁ k) (l : List Service) :
    ∀ b : AliasBucket, l.foldl (bucketStep ids₂) b = l.foldl (bucketStep ids₁) b := by
  induction l with
  | nil => intro b; rfl
  | cons a rest ih =>
    intro b
    rw [List.foldl_cons, List.foldl_cons, bucketStep_congr h b a, ih]

theorem mergeOne_names_valid (acc : MergeAcc) (e : Service) (hv : e.valid = true) :
    (mergeOne acc e).state.names
      = SMap.store acc.state.names e.nspace
          (SMap.store ((SMap.load acc.state.names e.nspace).getD []) e.name e) := by
  rw [mergeOne_state_valid acc e hv, updateCl5_names]

theorem mergeOne_svcMap_valid (acc : MergeAcc) (e : Service) (hv : e.valid = true) :
    (mergeOne acc e).state.serviceList.svcMap
      = SMap.store acc.state.serviceList.svcMap e.nspace
          (SMap.store ((SMap.load acc.state.serviceList.svcMap e.nspace).getD []) e.id e) := by
  rw [mergeOne_state_valid acc e hv, updateCl5_serviceList]
  rfl

theorem store_nil_nodup {V : Type} (key : String) (val : V) :
    SMap.NodupKeys (SMap.store ([] : SMap V) key val) := by
  simp [SMap.store, SMap.NodupKeys, SMap.keys]

theorem mergeAll_names_inner_nodup (L : List Service) :
    ∀ acc : MergeAcc,
      (∀ ns m, SMap.load acc.state.names ns = some m → SMap.NodupKeys m) →
      ∀ ns m, SMap.load (L.foldl mergeOne acc).state.names ns = some m →
        SMap.NodupKeys m := by
  induction L with
  | nil => intro acc h; exact h
  | cons e rest ih =>
    intro acc h
    rw [List.foldl_cons]
    refine ih (mergeOne acc e) ?_
    intro ns m hm
    cases hv : e.valid
    case false =>
      rw [mergeOne_state_invalid acc e hv, removeServices_names] at hm
      cases hsp : SMap.load acc.state.names e.nspace with
      | none =>
        rw [hsp] at hm
        exact h ns m hm
      | some spaces0 =>
        rw [hsp] at hm
        dsimp only at hm
        by_cases hns : e.nspace = ns
        · subst hns
          rw [SMap.load_store_self] at hm
          have hsp2 : SMap.erase spaces0 e.name = m := by simpa using hm
          rw [← hsp2]
          exact SMap.nodupKeys_erase _ _ (h e.nspace spaces0 hsp)
        · rw [SMap.load_store_of_ne _ _ (fun h2 => hns h2.symm)] at hm
          exact h ns m hm
    case true =>
      rw [mergeOne_names_valid acc e hv] at hm
      by_cases hns : e.nspace = ns
      · subst hns
        rw [SMap.load_store_self] at hm
        have hsp2 : SMap.store ((SMap.load acc.state.names e.nspace).getD []) e.name e
            = m := by simpa using hm
        rw [← hsp2]
        cases hsp : SMap.load acc.state.names e.nspace with
        | none => exact store_nil_nodup _ _
        | some m0 => exact SMap.nodupKeys_store _ _ _ (h e.nspace m0 hsp)
      · rw [SMap.load_store_of_ne _ _ (fun h2 => hns h2.symm)] at hm
        exact h ns m hm

theorem mergeAll_svcMap_inner_nodup (L : List Service) :
    ∀ acc : MergeAcc,
      (∀ ns m, SMap.load acc.state.serviceList.svcMap ns = some m → SMap.NodupKeys m) →
      ∀ ns m, SMap.load (L.foldl mergeOne acc).state.serviceList.svcMap ns = some m →
        SMap.NodupKeys m := by
  induction L with
  | nil => intro acc h; exact h
  | cons e rest ih =>
    intro acc h
    rw [List.foldl_cons]
    refine ih (mergeOne acc e) ?_
    intro ns m hm
    cases hv : e.valid
    case false =>
      rw [mergeOne_state_invalid acc e hv, removeServices_svcMap] at hm
      cases hsp : SMap.load acc.state.serviceList.svcMap e.nspace with
      | none =>
        rw [hsp] at hm
        exact h ns m hm
      | some spaces0 =>
        rw [hsp] at hm
        dsimp only at hm
        by_cases hns : e.nspace = ns
        · subst hns
          rw [SMap.load_store_self] at hm
          have hsp2 : SMap.erase spaces0 e.id = m := by simpa using hm
          rw [← hsp2]
          exact SMap.nodupKeys_erase _ _ (h e.nspace spaces0 hsp)
        · rw [SMap.load_store_of_ne _ _ (fun h2 => hns h2.symm)] at hm
          exact h ns m hm
    case true =>
      rw [mergeOne_svcMap_valid acc e hv] at hm
      by_cases hns : e.nspace = ns
      · subst hns
        rw [SMap.load_store_self] at hm
        have hsp2 : SMap.store
            ((SMap.load acc.state.serviceList.svcMap e.nspace).getD []) e.id e
            = m := by simpa using hm
        rw [← hsp2]
        cases hsp : SMap.load acc.state.serviceList.svcMap e.nspace with
        | none => exact store_nil_nodup _ _
        | some m0 => exact SMap.nodupKeys_store _ _ _ (h e.nspace m0 hsp)
      · rw [SMap.load_store_of_ne _ _ (fun h2 => hns h2.symm)] at hm
        exact h ns m hm

theorem countNamespace_foldl (inst : InstCache) :
    ∀ (m : SMap Service) (c : NamespaceServiceCount),
      m.foldl
        (fun count kv =>
          let insCnt := inst.getInstancesCountByServiceID kv.2.id
          { serviceCount := count.serviceCount + 1,
            instanceCnt :=
              { totalInstanceCount :=
                  count.instanceCnt.totalInstanceCount + insCnt.totalInstanceCount,
                healthyInstanceCount :=
                  count.instanceCnt.healthyInstanceCount + insCnt.healthyInstanceCount } })
        c
      = { serviceCount := c.serviceCount + m.length,
          instanceCnt :=
            { totalInstanceCount := c.instanceCnt.totalInstanceCount
                + (m.map (fun kv =>
                    (inst.getInstancesCountByServiceID kv.2.id).totalInstanceCount)).sum,
              healthyInstanceCount := c.instanceCnt.healthyInstanceCount
                + (m.map (fun kv =>
                    (inst.getInstancesCountByServiceID kv.2.id).healthyInstanceCount)).sum } } := by
  intro m
  induction m with
  | nil => intro c; simp
  | cons kv rest ih =>
    intro c
    rw [List.foldl_cons, ih]
    simp only [List.map_cons, List.sum_cons, List.length_cons,
      NamespaceServiceCount.mk.injEq, InstanceCount.mk.injEq]
    refine ⟨by omega, by omega, by omega⟩

theorem countNamespace_spec (inst : InstCache) (m : SMap Service) :
    countNamespace inst m
      = { serviceCount := m.length,
          instanceCnt :=
            { totalInstanceCount := (m.map (fun kv =>
                (inst.getInstancesCountByServiceID kv.2.id).totalInstanceCount)).sum,
              healthyInstanceCount := (m.map (fun kv =>
                (inst.getInstancesCountByServiceID kv.2.id).healthyInstanceCount)).sum } } := by
  unfold countNamespace
  rw [countNamespace_foldl]
  simp

theorem countNamespace_congr (inst : InstCache) {m₁ m₂ : SMap Service}
    (h₁ : SMap.NodupKeys m₁) (h₂ : SMap.NodupKeys m₂)
    (h : ∀ k, SMap.load m₁ k = SMap.load m₂ k) :
    countNamespace inst m₁ = countNamespace inst m₂ := by
  have hperm := perm_of_load_eq h₁ h₂ h
  rw [countNamespace_spec, countNamespace_spec, hperm.length_eq,
    (hperm.map (fun kv =>
      (inst.getInstancesCountByServiceID kv.2.id).totalInstanceCount)).sum_eq,
    (hperm.map (fun kv =>
      (inst.getInstancesCountByServiceID kv.2.id).healthyInstanceCount)).sum_eq]

theorem revisionToken_congr {m₁ m₂ : SMap Service}
    (h₁ : SMap.NodupKeys m₁) (h₂ : SMap.NodupKeys m₂)
    (h : ∀ k, SMap.load m₁ k = SMap.load m₂ k) :
    revisionToken m₁ = revisionToken m₂ := by
  unfold revisionToken
  apply Finset.ext
  intro kv
  obtain ⟨k, v⟩ := kv
  rw [List.mem_toFinset, List.mem_toFinset]
  constructor
  · intro hm
    exact SMap.mem_of_load_eq_some ((h k) ▸ SMap.load_eq_some_of_mem h₁ hm)
  · intro hm
    exact SMap.mem_of_load_eq_some ((h k).symm ▸ SMap.load_eq_some_of_mem h₂ hm)

theorem setServices_svcMap (inst : InstCache) (lm : Int) (s : CacheState)
    (L : List Service) (h : ¬ L.isEmpty = true) :
    (setServices inst lm s L).state.serviceList.svcMap
      = (mergedAcc lm s L).state.serviceList.svcMap := by
  rw [setServices_state_pipeline inst lm s L h]
  simp only [postProcessUpdatedServices_eq, postProcessServiceAlias_eq]
  rfl

theorem setServices_aliasBucket (inst : InstCache) (lm : Int) (s : CacheState)
    (L : List Service) (h : ¬ L.isEmpty = true) :
    (setServices inst lm s L).state.aliasBucket
      = (mergedAcc lm s L).aliases.foldl
          (bucketStep (mergedAcc lm s L).state.ids)
          (mergedAcc lm s L).state.aliasBucket := by
  rw [setServices_state_pipeline inst lm s L h]
  simp only [postProcessUpdatedServices_eq, postProcessServiceAlias_eq]
  rfl

theorem setServices_pending_load (inst : InstCache) (lm : Int) (s : CacheState)
    (L : List Service) (h : ¬ L.isEmpty = true) (k : String) :
    SMap.load (setServices inst lm s L).state.pendingServices k
      = if (SMap.load (mergedAcc lm s L).state.ids k).isSome then none
        else SMap.load (mergedAcc lm s L).state.pendingServices k := by
  rw [setServices_state_pipeline inst lm s L h]
  simp only [postProcessUpdatedServices_eq, postProcessServiceAlias_eq]
  exact append_pending_load _ _ k

theorem setServices_nsCnt_load (inst : InstCache) (lm : Int) (s : CacheState)
    (L : List Service) (h : ¬ L.isEmpty = true) (ns : String) :
    SMap.load (setServices inst lm s L).state.namespaceServiceCnt ns
      = if ns ∈ affectSet lm s L
        then (SMap.load (mergedAcc lm s L).state.names ns).map (countNamespace inst)
        else SMap.load (mergedAcc lm s L).state.namespaceServiceCnt ns := by
  rw [setServices_state_pipeline inst lm s L h]
  simp only [postProcessUpdatedServices_eq]
  show SMap.load
      ((appendServiceCountChangeNamespace (postAliasState lm s L)
        (mergedAcc lm s L).changeNs).1.foldl
          (cntStep inst (postAliasState lm s L).names)
          (postAliasState lm s L).namespaceServiceCnt) ns = _
  rw [cntFold_load]
  rw [show (postAliasState lm s L).names = (mergedAcc lm s L).state.names from by
      unfold postAliasState
      rw [postProcessServiceAlias_eq]]
  rw [show (postAliasState lm s L).namespaceServiceCnt
      = (mergedAcc lm s L).state.namespaceServiceCnt from by
      unfold postAliasState
      rw [postProcessServiceAlias_eq]]
  rfl

theorem setServices_revisions_load (inst : InstCache) (lm : Int) (s : CacheState)
    (L : List Service) (h : ¬ L.isEmpty = true) (ns : String) :
    SMap.load (setServices inst lm s L).state.serviceList.revisions ns
      = (SMap.load (mergedAcc lm s L).state.serviceList.svcMap ns).map revisionToken := by
  rw [setServices_state_pipeline inst lm s L h]
  simp only [postProcessUpdatedServices_eq, postProcessServiceAlias_eq]
  show SMap.load
      ((mergedAcc lm s L).state.serviceList.svcMap.map
        (fun kv => (kv.1, revisionToken kv.2))) ns = _
  exact SMap.load_mapVals (fun _ v => revisionToken v) _ ns

theorem mergeAll_svcCount_all_present (L : List Service) :
    ∀ acc : MergeAcc, (L.map Service.id).Nodup →
      (∀ e ∈ L, e.valid = true → (SMap.load acc.state.ids e.id).isSome) →
      (L.foldl mergeOne acc).svcCount
        = acc.svcCount - ((L.filter (fun e => !e.valid)).length : Int) := by
  induction L with
  | nil =>
    intro acc _ _
    simp
  | cons e rest ih =>
    intro acc h2 h3
    rw [List.map_cons] at h2
    obtain ⟨h2a, h2b⟩ := List.nodup_cons.mp h2
    have htrans : ∀ e' ∈ rest, SMap.load (mergeOne acc e).state.ids e'.id
        = SMap.load acc.state.ids e'.id := by
      intro e' he'
      rw [mergeOne_load_ids]
      have hne : e.id ≠ e'.id := fun h => h2a (h ▸ List.mem_map_of_mem Service.id he')
      simp [hne]
    have h3' : ∀ e' ∈ rest, e'.valid = true →
        (SMap.load (mergeOne acc e).state.ids e'.id).isSome := by
      intro e' he' hv
      rw [htrans e' he']
      exact h3 e' (List.mem_cons_of_mem _ he') hv
    rw [List.foldl_cons, ih (mergeOne acc e) h2b h3']
    cases hv : e.valid
    case false =>
      have hcnt : (mergeOne acc e).svcCount = acc.svcCount - 1 := by
        rw [mergeOne_svcCount]
        simp [hv]
      have hD : (e :: rest).filter (fun x => !x.valid)
          = e :: rest.filter (fun x => !x.valid) := by
        simp [List.filter_cons, hv]
      rw [hcnt, hD, List.length_cons]
      push_cast
      ring
    case true =>
      have hsome := h3 e (List.mem_cons_self _ _) hv
      have hcnt : (mergeOne acc e).svcCount = acc.svcCount := by
        rw [mergeOne_svcCount]
        simp [hv, hsome]
      have hD : (e :: rest).filter (fun x => !x.valid)
          = rest.filter (fun x => !x.valid) := by
        simp [List.filter_cons, hv]
      rw [hcnt, hD]

/-- C2 counterexample: applying the identical batch a second time changes
the observable state: the legacy cl5 name index regains an entry the first
application had removed, and the running total serviceCount is decremented
again by the soft-delete. -/
theorem claim_C2_counterexample :
    SMap.load c2s1.cl5Names "cl5.X" = none ∧
    SMap.load c2s2.cl5Names "cl5.X" ≠ none ∧
    c2s2.serviceCount ≠ c2s1.serviceCount := by
  refine ⟨by decide, by decide, by decide⟩

theorem getD_idem {β : Type} (eff : Option β) (x : β) :
    eff.getD (eff.getD x) = eff.getD x := by
  cases eff <;> rfl

theorem load2_of_load {V : Type} {m : SMap (SMap V)} {ns : String} {inner : SMap V}
    (hm : SMap.load m ns = some inner) (nm : String) :
    load2 m ns nm = SMap.load inner nm := by
  unfold load2
  rw [hm]

theorem setServices_ids2 (inst : InstCache) (lm : Int) (s : CacheState)
    (L : List Service) (h : ¬ L.isEmpty = true) :
    (setServices inst lm s L).state.ids = (mergedAcc lm s L).state.ids :=
  setServices_ids inst lm s L h

theorem setServices_names2 (inst : InstCache) (lm : Int) (s : CacheState)
    (L : List Service) (h : ¬ L.isEmpty = true) :
    (setServices inst lm s L).state.names = (mergedAcc lm s L).state.names :=
  setServices_names inst lm s L h

theorem setServices_serviceCount2 (inst : InstCache) (lm : Int) (s : CacheState)
    (L : List Service) (h : ¬ L.isEmpty = true) :
    (setServices inst lm s L).state.serviceCount = (mergedAcc lm s L).svcCount :=
  setServices_serviceCount inst lm s L h

theorem c2_ids_eq (inst : InstCache) (lm lm' : Int) (s : CacheState) (B : List Service)
    (hB : ¬ B.isEmpty = true) :
    ∀ k, SMap.load (mergedAcc lm' (setServices inst lm s B).state B).state.ids k
      = SMap.load (mergedAcc lm s B).state.ids k := by
  intro k
  have h2 : SMap.load (mergedAcc lm' (setServices inst lm s B).state B).state.ids k
      = (idsEffect B k).getD (SMap.load (setServices inst lm s B).state.ids k) :=
    mergeAll_load_ids B (initAcc lm' (setServices inst lm s B).state) k
  have h1 : SMap.load (mergedAcc lm s B).state.ids k
      = (idsEffect B k).getD (SMap.load s.ids k) :=
    mergeAll_load_ids B (initAcc lm s) k
  rw [h2, setServices_ids2 inst lm s B hB, h1, getD_idem]

theorem c2_names2_eq (inst : InstCache) (lm lm' : Int) (s : CacheState) (B : List Service)
    (hB : ¬ B.isEmpty = true) :
    ∀ ns nm, load2 (mergedAcc lm' (setServices inst lm s B).state B).state.names ns nm
      = load2 (mergedAcc lm s B).state.names ns nm := by
  intro ns nm
  have h2 : load2 (mergedAcc lm' (setServices inst lm s B).state B).state.names ns nm
      = (namesEffect B ns nm).getD
          (load2 (setServices inst lm s B).state.names ns nm) :=
    mergeAll_load2_names B (initAcc lm' (setServices inst lm s B).state) ns nm
  have h1 : load2 (mergedAcc lm s B).state.names ns nm
      = (namesEffect B ns nm).getD (load2 s.names ns nm) :=
    mergeAll_load2_names B (initAcc lm s) ns nm
  have hmid : load2 (setServices inst lm s B).state.names ns nm
      = load2 (mergedAcc lm s B).state.names ns nm := by
    unfold load2
    rw [setServices_names2 inst lm s B hB]
  rw [h2, hmid, h1, getD_idem]

theorem c2_namesdom_eq (inst : InstCache) (lm lm' : Int) (s : CacheState)
    (B : List Service) (hB : ¬ B.isEmpty = true) :
    ∀ ns, (SMap.load (mergedAcc lm' (setServices inst lm s B).state B).state.names ns).isSome
      = (SMap.load (mergedAcc lm s B).state.names ns).isSome := by
  intro ns
  have h2 : (SMap.load (mergedAcc lm' (setServices inst lm s B).state B).state.names ns).isSome
      = (B.any (fun e => e.valid && decide (e.nspace = ns))
          || (SMap.load (setServices inst lm s B).state.names ns).isSome) :=
    mergeAll_isSome_names B (initAcc lm' (setServices inst lm s B).state) ns
  have h1 : (SMap.load (mergedAcc lm s B).state.names ns).isSome
      = (B.any (fun e => e.valid && decide (e.nspace = ns))
          || (SMap.load s.names ns).isSome) :=
    mergeAll_isSome_names B (initAcc lm s) ns
  rw [h2, setServices_names2 inst lm s B hB, h1]
  cases B.any (fun e => e.valid && decide (e.nspace = ns)) <;> simp

theorem c2_svcmap2_eq (inst : InstCache) (lm lm' : Int) (s : CacheState)
    (B : List Service) (hB : ¬ B.isEmpty = true) :
    ∀ ns i, load2 (mergedAcc lm' (setServices inst lm s B).state B).state.serviceList.svcMap ns i
      = load2 (mergedAcc lm s B).state.serviceList.svcMap ns i := by
  intro ns i
  have h2 := mergeAll_load2_svcMap B (initAcc lm' (setServices inst lm s B).state) ns i
  have h1 := mergeAll_load2_svcMap B (initAcc lm s) ns i
  have hmid : load2 (setServices inst lm s B).state.serviceList.svcMap ns i
      = load2 (mergedAcc lm s B).state.serviceList.svcMap ns i := by
    unfold load2
    rw [setServices_svcMap inst lm s B hB]
  show load2 (mergedAcc lm' (setServices inst lm s B).state B).state.serviceList.svcMap ns i
      = load2 (mergedAcc lm s B).state.serviceList.svcMap ns i
  rw [show load2 (mergedAcc lm' (setServices inst lm s B).state B).state.serviceList.svcMap ns i
      = (svcMapEffect B ns i).getD
          (load2 (setServices inst lm s B).state.serviceList.svcMap ns i) from h2,
    hmid,
    show load2 (mergedAcc lm s B).state.serviceList.svcMap ns i
      = (svcMapEffect B ns i).getD (load2 s.serviceList.svcMap ns i) from h1,
    getD_idem]

theorem c2_svcmapdom_eq (inst : InstCache) (lm lm' : Int) (s : CacheState)
    (B : List Service) (hB : ¬ B.isEmpty = true) :
    ∀ ns, (SMap.load (mergedAcc lm' (setServices inst lm s B).state B).state.serviceList.svcMap ns).isSome
      = (SMap.load (mergedAcc lm s B).state.serviceList.svcMap ns).isSome := by
  intro ns
  have h2 : (SMap.load (mergedAcc lm' (setServices inst lm s B).state B).state.serviceList.svcMap ns).isSome
      = (B.any (fun e => e.valid && decide (e.nspace = ns))
          || (SMap.load (setServices inst lm s B).state.serviceList.svcMap ns).isSome) :=
    mergeAll_isSome_svcMap B (initAcc lm' (setServices inst lm s B).state) ns
  have h1 : (SMap.load (mergedAcc lm s B).state.serviceList.svcMap ns).isSome
      = (B.any (fun e => e.valid && decide (e.nspace = ns))
          || (SMap.load s.serviceList.svcMap ns).isSome) :=
    mergeAll_isSome_svcMap B (initAcc lm s) ns
  rw [h2, setServices_svcMap inst lm s B hB, h1]
  cases B.any (fun e => e.valid && decide (e.nspace = ns)) <;> simp

theorem c2_pending_eq (inst : InstCache) (lm lm' : Int) (s : CacheState)
    (B : List Service) (hB : ¬ B.isEmpty = true) :
    ∀ k, SMap.load (setServices inst lm' (setServices inst lm s B).state B).state.pendingServices k
      = SMap.load (setServices inst lm s B).state.pendingServices k := by
  intro k
  rw [setServices_pending_load inst lm' (setServices inst lm s B).state B hB k,
    c2_ids_eq inst lm lm' s B hB k]
  cases hsome : (SMap.load (mergedAcc lm s B).state.ids k).isSome
  case true =>
    rw [setServices_pending_load inst lm s B hB k]
    simp [hsome]
  case false =>
    simp only [hsome, Bool.false_eq_true, if_false]
    have hA2p : SMap.load (mergedAcc lm' (setServices inst lm s B).state B).state.pendingServices k
        = (lastWrite (fun e => !e.valid && decide (e.id = k))
            (fun _ => (none : Option Unit)) B).getD
            (SMap.load (setServices inst lm s B).state.pendingServices k) :=
      mergeAll_load_pending B (initAcc lm' (setServices inst lm s B).state) k
    have hA1p : SMap.load (mergedAcc lm s B).state.pendingServices k
        = (lastWrite (fun e => !e.valid && decide (e.id = k))
            (fun _ => (none : Option Unit)) B).getD
            (SMap.load s.pendingServices k) :=
      mergeAll_load_pending B (initAcc lm s) k
    have hs1p := setServices_pending_load inst lm s B hB k
    rw [hA2p, hs1p]
    simp only [hsome, Bool.false_eq_true, if_false]
    rw [hA1p, getD_idem]

theorem c2_affect_eq (inst : InstCache) (lm lm' : Int) (s : CacheState)
    (B : List Service) (hB : ¬ B.isEmpty = true) :
    affectSet lm' (setServices inst lm s B).state B = (mergedAcc lm s B).changeNs := by
  have ht2p : (postAliasState lm' (setServices inst lm s B).state B).pendingServices
      = (mergedAcc lm' (setServices inst lm s B).state B).state.pendingServices := by
    unfold postAliasState
    rw [postProcessServiceAlias_eq]
  have ht2i : (postAliasState lm' (setServices inst lm s B).state B).ids
      = (mergedAcc lm' (setServices inst lm s B).state B).state.ids := by
    unfold postAliasState
    rw [postProcessServiceAlias_eq]
  have hprop : ∀ k,
      (SMap.load (postAliasState lm' (setServices inst lm s B).state B).pendingServices k).isSome →
      SMap.load (postAliasState lm' (setServices inst lm s B).state B).ids k = none := by
    intro k h
    rw [ht2p] at h
    rw [ht2i]
    have hA2p : SMap.load (mergedAcc lm' (setServices inst lm s B).state B).state.pendingServices k
        = (lastWrite (fun e => !e.valid && decide (e.id = k))
            (fun _ => (none : Option Unit)) B).getD
            (SMap.load (setServices inst lm s B).state.pendingServices k) :=
      mergeAll_load_pending B (initAcc lm' (setServices inst lm s B).state) k
    rw [hA2p] at h
    cases hpe : lastWrite (fun e => !e.valid && decide (e.id = k))
        (fun _ => (none : Option Unit)) B with
    | some u =>
      obtain ⟨a, _, _, hfa⟩ := lastWrite_eq_some _ _ B u hpe
      rw [hpe, ← hfa] at h
      simp at h
    | none =>
      rw [hpe] at h
      simp only [Option.getD_none] at h
      rw [setServices_pending_load inst lm s B hB k] at h
      cases hsome : (SMap.load (mergedAcc lm s B).state.ids k).isSome
      case false =>
        rw [c2_ids_eq inst lm lm' s B hB k]
        cases hl : SMap.load (mergedAcc lm s B).state.ids k with
        | none => rfl
        | some v =>
          rw [hl] at hsome
          simp at hsome
      case true =>
        rw [hsome] at h
        simp at h
  unfold affectSet
  rw [append_no_resolved _ _ hprop]
  show (mergedAcc lm' (setServices inst lm s B).state B).changeNs
      = (mergedAcc lm s B).changeNs
  show (B.foldl mergeOne (initAcc lm' (setServices inst lm s B).state)).changeNs
      = (B.foldl mergeOne (initAcc lm s)).changeNs
  rw [mergeAll_changeNs, mergeAll_changeNs]
  rfl

theorem c2_names_inner_eq (inst : InstCache) (lm lm' : Int) (s : CacheState)
    (B : List Service) (hB : ¬ B.isEmpty = true)
    (hwf2 : ∀ ns m, SMap.load s.names ns = some m → SMap.NodupKeys m) (ns : String) :
    (SMap.load (mergedAcc lm' (setServices inst lm s B).state B).state.names ns).map
        (countNamespace inst)
      = (SMap.load (mergedAcc lm s B).state.names ns).map (countNamespace inst) := by
  have hdom := c2_namesdom_eq inst lm lm' s B hB ns
  have hwf1in : ∀ ns m, SMap.load (mergedAcc lm s B).state.names ns = some m →
      SMap.NodupKeys m :=
    mergeAll_names_inner_nodup B (initAcc lm s) hwf2
  have hwf2s1 : ∀ ns m, SMap.load (setServices inst lm s B).state.names ns = some m →
      SMap.NodupKeys m := by
    intro ns m hm
    rw [setServices_names2 inst lm s B hB] at hm
    exact hwf1in ns m hm
  have hwf2in : ∀ ns m,
      SMap.load (mergedAcc lm' (setServices inst lm s B).state B).state.names ns = some m →
      SMap.NodupKeys m :=
    mergeAll_names_inner_nodup B (initAcc lm' (setServices inst lm s B).state) hwf2s1
  cases h1 : SMap.load (mergedAcc lm s B).state.names ns with
  | none =>
    cases h2 : SMap.load (mergedAcc lm' (setServices inst lm s B).state B).state.names ns with
    | none => rfl
    | some m2 =>
      rw [h1, h2] at hdom
      simp at hdom
  | some m1 =>
    cases h2 : SMap.load (mergedAcc lm' (setServices inst lm s B).state B).state.names ns with
    | none =>
      rw [h1, h2] at hdom
      simp at hdom
    | some m2 =>
      have hcount : countNamespace inst m2 = countNamespace inst m1 := by
        apply countNamespace_congr inst (hwf2in ns m2 h2) (hwf1in ns m1 h1)
        intro k
        have hpt := c2_names2_eq inst lm lm' s B hB ns k
        rw [load2_of_load h2 k, load2_of_load h1 k] at hpt
        exact hpt
      show some (countNamespace inst m2) = some (countNamespace inst m1)
      rw [hcount]

theorem c2_nsCnt_eq (inst : InstCache) (lm lm' : Int) (s : CacheState)
    (B : List Service) (hB : ¬ B.isEmpty = true)
    (hwf2 : ∀ ns m, SMap.load s.names ns = some m → SMap.NodupKeys m) :
    ∀ ns, SMap.load
        (setServices inst lm' (setServices inst lm s B).state B).state.namespaceServiceCnt ns
      = SMap.load (setServices inst lm s B).state.namespaceServiceCnt ns := by
  intro ns
  rw [setServices_nsCnt_load inst lm' (setServices inst lm s B).state B hB ns,
    c2_affect_eq inst lm lm' s B hB]
  by_cases hc : ns ∈ (mergedAcc lm s B).changeNs
  · rw [if_pos hc]
    have hcin : ns ∈ affectSet lm s B := by
      unfold affectSet
      exact (append_changeNs_mem _ _ ns).mpr (Or.inl hc)
    rw [setServices_nsCnt_load inst lm s B hB ns, if_pos hcin]
    exact c2_names_inner_eq inst lm lm' s B hB hwf2 ns
  · rw [if_neg hc]
    have hfr : (mergedAcc lm' (setServices inst lm s B).state B).state.namespaceServiceCnt
        = (setServices inst lm s B).state.namespaceServiceCnt :=
      mergeAll_namespaceServiceCnt B (initAcc lm' (setServices inst lm s B).state)
    rw [hfr]

theorem c2_rev_eq (inst : InstCache) (lm lm' : Int) (s : CacheState)
    (B : List Service) (hB : ¬ B.isEmpty = true)
    (hwf3 : ∀ ns m, SMap.load s.serviceList.svcMap ns = some m → SMap.NodupKeys m) :
    ∀ ns, SMap.load
        (setServices inst lm' (setServices inst lm s B).state B).state.serviceList.revisions ns
      = SMap.load (setServices inst lm s B).state.serviceList.revisions ns := by
  intro ns
  rw [setServices_revisions_load inst lm' (setServices inst lm s B).state B hB ns,
    setServices_revisions_load inst lm s B hB ns]
  have hdom := c2_svcmapdom_eq inst lm lm' s B hB ns
  have hwf1in : ∀ ns m, SMap.load (mergedAcc lm s B).state.serviceList.svcMap ns = some m →
      SMap.NodupKeys m :=
    mergeAll_svcMap_inner_nodup B (initAcc lm s) hwf3
  have hwf3s1 : ∀ ns m,
      SMap.load (setServices inst lm s B).state.serviceList.svcMap ns = some m →
      SMap.NodupKeys m := by
    intro ns m hm
    rw [setServices_svcMap inst lm s B hB] at hm
    exact hwf1in ns m hm
  have hwf2in : ∀ ns m,
      SMap.load (mergedAcc lm' (setServices inst lm s B).state B).state.serviceList.svcMap ns
        = some m → SMap.NodupKeys m :=
    mergeAll_svcMap_inner_nodup B (initAcc lm' (setServices inst lm s B).state) hwf3s1
  cases h1 : SMap.load (mergedAcc lm s B).state.serviceList.svcMap ns with
  | none =>
    cases h2 : SMap.load
        (mergedAcc lm' (setServices inst lm s B).state B).state.serviceList.svcMap ns with
    | none => rfl
    | some m2 =>
      rw [h1, h2] at hdom
      simp at hdom
  | some m1 =>
    cases h2 : SMap.load
        (mergedAcc lm' (setServices inst lm s B).state B).state.serviceList.svcMap ns with
    | none =>
      rw [h1, h2] at hdom
      simp at hdom
    | some m2 =>
      have htok : revisionToken m2 = revisionToken m1 := by
        apply revisionToken_congr (hwf2in ns m2 h2) (hwf1in ns m1 h1)
        intro k
        have hpt := c2_svcmap2_eq inst lm lm' s B hB ns k
        rw [load2_of_load h2 k, load2_of_load h1 k] at hpt
        exact hpt
      show some (revisionToken m2) = some (revisionToken m1)
      rw [htok]

theorem c2_alias_eq (inst : InstCache) (lm lm' : Int) (s : CacheState)
    (B : List Service) (hB : ¬ B.isEmpty = true) :
    (setServices inst lm' (setServices inst lm s B).state B).state.aliasBucket
      = (setServices inst lm s B).state.aliasBucket := by
  rw [setServices_aliasBucket inst lm' (setServices inst lm s B).state B hB]
  have halias : (mergedAcc lm' (setServices inst lm s B).state B).aliases
      = (mergedAcc lm s B).aliases := by
    show (B.foldl mergeOne (initAcc lm' (setServices inst lm s B).state)).aliases
        = (B.foldl mergeOne (initAcc lm s)).aliases
    rw [mergeAll_aliases, mergeAll_aliases]
    rfl
  rw [halias, bucketFold_congr (c2_ids_eq inst lm lm' s B hB) (mergedAcc lm s B).aliases,
    setServices_aliasBucket inst lm s B hB]
  apply Finset.ext
  intro p
  apply decide_eq_decide.mp
  rw [bucketFold_mem_bool, bucketFold_mem_bool]
  cases heff : lastWrite (aliasTouches (mergedAcc lm s B).state.ids p)
      (fun a => (SMap.load (mergedAcc lm s B).state.ids a.id).isSome)
      (mergedAcc lm s B).aliases with
  | some b => rfl
  | none =>
    simp only [Option.getD_none]
    apply decide_eq_decide.mpr
    have hmem2 : p ∈ (mergedAcc lm' (setServices inst lm s B).state B).state.aliasBucket
        ↔ p ∈ (setServices inst lm s B).state.aliasBucket ∧
            ∀ e ∈ B, e.valid = true ∨ (p.1 ≠ e.id ∧ p.2 ≠ e.id) :=
      mergeAll_mem_aliasBucket B (initAcc lm' (setServices inst lm s B).state) p
    have hmem1 : p ∈ (mergedAcc lm s B).state.aliasBucket
        ↔ p ∈ s.aliasBucket ∧
            ∀ e ∈ B, e.valid = true ∨ (p.1 ≠ e.id ∧ p.2 ≠ e.id) :=
      mergeAll_mem_aliasBucket B (initAcc lm s) p
    have hd1b : decide (p ∈ (setServices inst lm s B).state.aliasBucket)
        = decide (p ∈ (mergedAcc lm s B).state.aliasBucket) := by
      rw [setServices_aliasBucket inst lm s B hB, bucketFold_mem_bool, heff]
      rfl
    have hiff1 : p ∈ (setServices inst lm s B).state.aliasBucket
        ↔ p ∈ (mergedAcc lm s B).state.aliasBucket := decide_eq_decide.mp hd1b
    constructor
    · intro hp
      obtain ⟨hp1, hQ⟩ := hmem2.mp hp
      exact hiff1.mp hp1
    · intro hp
      obtain ⟨hps, hQ⟩ := hmem1.mp hp
      exact hmem2.mpr ⟨hiff1.mpr hp, hQ⟩

theorem c2_count_eq (inst : InstCache) (lm lm' : Int) (s : CacheState)
    (B : List Service) (hB : ¬ B.isEmpty = true) (hwf1 : SMap.NodupKeys s.ids) :
    GetServicesCount (setServices inst lm' (setServices inst lm s B).state B).state
      = GetServicesCount (setServices inst lm s B).state := by
  rw [GetServicesCount_eq_length, GetServicesCount_eq_length,
    setServices_ids2 inst lm' (setServices inst lm s B).state B hB,
    setServices_ids2 inst lm s B hB]
  have hnd1 : SMap.NodupKeys (mergedAcc lm s B).state.ids :=
    mergeAll_nodup_ids B (initAcc lm s) hwf1
  have hnds1 : SMap.NodupKeys (setServices inst lm s B).state.ids := by
    rw [setServices_ids2 inst lm s B hB]
    exact hnd1
  have hnd2 : SMap.NodupKeys (mergedAcc lm' (setServices inst lm s B).state B).state.ids :=
    mergeAll_nodup_ids B (initAcc lm' (setServices inst lm s B).state) hnds1
  exact length_eq_of_load_eq hnd2 hnd1 (c2_ids_eq inst lm lm' s B hB)

theorem c2_svcCount_eq (inst : InstCache) (lm lm' : Int) (s : CacheState)
    (B : List Service) (hB : ¬ B.isEmpty = true) (hnd : (B.map Service.id).Nodup) :
    (setServices inst lm' (setServices inst lm s B).state B).state.serviceCount
      = (setServices inst lm s B).state.serviceCount
          - ((B.filter (fun e => !e.valid)).length : Int) := by
  rw [setServices_serviceCount2 inst lm' (setServices inst lm s B).state B hB]
  have hpres : ∀ e ∈ B, e.valid = true →
      (SMap.load (initAcc lm' (setServices inst lm s B).state).state.ids e.id).isSome := by
    intro e he hv
    show (SMap.load (setServices inst lm s B).state.ids e.id).isSome
    rw [setServices_ids2 inst lm s B hB]
    have hload : SMap.load (mergedAcc lm s B).state.ids e.id
        = (idsEffect B e.id).getD (SMap.load s.ids e.id) :=
      mergeAll_load_ids B (initAcc lm s) e.id
    have heff : idsEffect B e.id = some (if e.valid then some e else none) := by
      unfold idsEffect
      exact lastWrite_unique _ _ B e he (by simp)
        (fun b hb hPb => List.inj_on_of_nodup_map hnd hb he (of_decide_eq_true hPb))
    rw [hload, heff, hv]
    simp
  have hall := mergeAll_svcCount_all_present B
    (initAcc lm' (setServices inst lm s B).state) hnd hpres
  exact hall

/-- C2: applying the identical batch twice is NOT a no-op as claimed; the
corrected statement is: on a batch of distinct identifiers the second
application leaves every index observably unchanged — the primary index,
the (namespace,name) index (domain and contents), the per-namespace
listing bucket and its revision tokens, the pending set, the alias bucket,
the per-namespace aggregates and countAll() — but the running total
serviceCount drops again by the number of soft-deletes in the batch
(each re-applied tombstone decrements it although the key is already
absent). The legacy cl5 index can also change on the second application,
as the separate counterexample shows. -/
theorem claim_C2 (inst : InstCache) (lm lm' : Int) (s : CacheState) (B : List Service)
    (hwf1 : SMap.NodupKeys s.ids)
    (hwf2 : ∀ ns m, SMap.load s.names ns = some m → SMap.NodupKeys m)
    (hwf3 : ∀ ns m, SMap.load s.serviceList.svcMap ns = some m → SMap.NodupKeys m)
    (hnd : (B.map Service.id).Nodup) :
    (∀ k, SMap.load (setServices inst lm' (setServices inst lm s B).state B).state.ids k
      = SMap.load (setServices inst lm s B).state.ids k)
    ∧ (∀ ns nm, load2 (setServices inst lm' (setServices inst lm s B).state B).state.names ns nm
      = load2 (setServices inst lm s B).state.names ns nm)
    ∧ (∀ ns, (SMap.load (setServices inst lm' (setServices inst lm s B).state B).state.names ns).isSome
      = (SMap.load (setServices inst lm s B).state.names ns).isSome)
    ∧ (∀ ns i, load2 (setServices inst lm' (setServices inst lm s B).state B).state.serviceList.svcMap ns i
      = load2 (setServices inst lm s B).state.serviceList.svcMap ns i)
    ∧ (∀ ns, (SMap.load (setServices inst lm' (setServices inst lm s B).state B).state.serviceList.svcMap ns).isSome
      = (SMap.load (setServices inst lm s B).state.serviceList.svcMap ns).isSome)
    ∧ (∀ k, SMap.load (setServices inst lm' (setServices inst lm s B).state B).state.pendingServices k
      = SMap.load (setServices inst lm s B).state.pendingServices k)
    ∧ (setServices inst lm' (setServices inst lm s B).state B).state.aliasBucket
      = (setServices inst lm s B).state.aliasBucket
    ∧ (∀ ns, SMap.load (setServices inst lm' (setServices inst lm s B).state B).state.namespaceServiceCnt ns
      = SMap.load (setServices inst lm s B).state.namespaceServiceCnt ns)
    ∧ (∀ ns, SMap.load (setServices inst lm' (setServices inst lm s B).state B).state.serviceList.revisions ns
      = SMap.load (setServices inst lm s B).state.serviceList.revisions ns)
    ∧ GetServicesCount (setServices inst lm' (setServices inst lm s B).state B).state
      = GetServicesCount (setServices inst lm s B).state
    ∧ (setServices inst lm' (setServices inst lm s B).state B).state.serviceCount
      = (setServices inst lm s B).state.serviceCount
          - ((B.filter (fun e => !e.valid)).length : Int) := by
  by_cases hB : B.isEmpty = true
  · have hBnil : B = [] := List.isEmpty_iff.mp hB
    subst hBnil
    refine ⟨fun k => rfl, fun ns nm => rfl, fun ns => rfl, fun ns i => rfl, fun ns => rfl,
      fun k => rfl, rfl, fun ns => rfl, fun ns => rfl, rfl, ?_⟩
    simp
    rfl
  · refine ⟨?_, ?_, ?_, ?_, ?_, c2_pending_eq inst lm lm' s B hB,
      c2_alias_eq inst lm lm' s B hB, c2_nsCnt_eq inst lm lm' s B hB hwf2,
      c2_rev_eq inst lm lm' s B hB hwf3, c2_count_eq inst lm lm' s B hB hwf1,
      c2_svcCount_eq inst lm lm' s B hB hnd⟩
    · intro k
      rw [setServices_ids2 inst lm' (setServices inst lm s B).state B hB,
        setServices_ids2 inst lm s B hB]
      exact c2_ids_eq inst lm lm' s B hB k
    · intro ns nm
      have h2 := setServices_names2 inst lm' (setServices inst lm s B).state B hB
      have h1 := setServices_names2 inst lm s B hB
      unfold load2
      rw [h2, h1]
      exact c2_names2_eq inst lm lm' s B hB ns nm
    · intro ns
      rw [setServices_names2 inst lm' (setServices inst lm s B).state B hB,
        setServices_names2 inst lm s B hB]
      exact c2_namesdom_eq inst lm lm' s B hB ns
    · intro ns i
      have h2 := setServices_svcMap inst lm' (setServices inst lm s B).state B hB
      have h1 := setServices_svcMap inst lm s B hB
      unfold load2
      rw [h2, h1]
      exact c2_svcmap2_eq inst lm lm' s B hB ns i
    · intro ns
      rw [setServices_svcMap inst lm' (setServices inst lm s B).state B hB,
        setServices_svcMap inst lm s B hB]
      exact c2_svcmapdom_eq inst lm lm' s B hB ns

/-- Witness for C2: the corrected statement instantiated on a singleton
batch over the empty initial cache; the second application changes the
running total by the number of tombstones in the batch (zero here). -/
theorem claim_C2_witness :
    (setServices inst0 1 (setServices inst0 0 initialState [svcX]).state [svcX]).state.serviceCount
      = (setServices inst0 0 initialState [svcX]).state.serviceCount
          - ((([svcX].filter (fun e => !e.valid)).length : Nat) : Int) :=
  (claim_C2 inst0 0 1 initialState [svcX] (by decide)
    (fun ns m hm => Option.noConfusion hm)
    (fun ns m hm => Option.noConfusion hm) (by decide)).2.2.2.2.2.2.2.2.2.2
